import Mathlib

/-!
# Coverall `composer` module: a shallow embedding

The module `lib/composer.js` exposes `getName` (package naming from a SHA-1
digest of the source files) and `compile` (staleness-aware compilation of two
TeX documents followed by a merge).  This file embeds both in Lean together
with the parts of the Node.js runtime they rely on.

Conventions of the embedding:

* a string is its list of UTF-16 code units, a buffer its list of bytes;
* a promise is represented by the way it ends (`Outcome`): fulfilled, rejected,
  never settled, or a synchronous throw of the call that should have returned it;
* the file system, the working directory, `changeCase.paramCase` and the
  behaviour of spawned children are fields of an environment `Env`;
* the order in which the event loop delivers the events of concurrently flowing
  read streams is an explicit `schedule`, and the order in which two concurrent
  compile promises settle an explicit flag;
* effects are recorded next to the outcome: the bytes fed to the hash, the
  processes spawned, the calls of the two strategies;
* `crypto.createHash('sha1')` is SHA-1 as specified in FIPS 180-4 and `path` is
  the POSIX flavour of Node's module.
-/

namespace Coverall

/-! ## JavaScript strings and buffers -/

/-- A JavaScript string: a finite sequence of UTF-16 code units. -/
abbrev JSString := List Nat

/-- A Node `Buffer`: a finite sequence of bytes (each read modulo 256). -/
abbrev Buffer := List Nat

/-- UTF-16 code units of one Unicode scalar value. -/
def utf16Units (c : Char) : List Nat :=
  if c.toNat < 0x10000 then [c.toNat]
  else [0xD800 + (c.toNat - 0x10000) / 0x400, 0xDC00 + (c.toNat - 0x10000) % 0x400]

/-- The JavaScript string written by a Lean string literal. -/
def js (s : String) : JSString := s.toList.flatMap utf16Units

/-! ## SHA-1 (FIPS 180-4), as computed by `crypto.createHash('sha1')` -/

/-- Rotate a 32-bit word left by `n` bits. -/
def rotl32 (x n : Nat) : Nat :=
  ((x <<< n) ||| (x >>> (32 - n))) % 2 ^ 32

/-- Big-endian 8-byte encoding of a length in bits. -/
def be64 (n : Nat) : List Nat :=
  (List.range 8).map fun i => (n >>> (8 * (7 - i))) % 256

/-- Message padding: a `0x80` byte, zero bytes up to 56 modulo 64, then the bit length. -/
def sha1Pad (msg : Buffer) : List Nat :=
  msg.map (· % 256) ++ [0x80] ++ List.replicate ((119 - msg.length % 64) % 64) 0
    ++ be64 (8 * msg.length)

/-- The sixteen big-endian 32-bit words of a 64-byte block. -/
def blockWords (block : List Nat) : List Nat :=
  (List.range 16).map fun i =>
    block.getD (4 * i) 0 * 2 ^ 24 + block.getD (4 * i + 1) 0 * 2 ^ 16
      + block.getD (4 * i + 2) 0 * 2 ^ 8 + block.getD (4 * i + 3) 0

/-- Message schedule: the eighty words `W_0 .. W_79`. -/
def sha1Schedule (w16 : List Nat) : List Nat :=
  (List.range 64).foldl
    (fun w t =>
      w ++ [rotl32 (w.getD (t + 13) 0 ^^^ w.getD (t + 8) 0 ^^^ w.getD (t + 2) 0 ^^^ w.getD t 0) 1])
    w16

/-- Round function `f_t`. -/
def sha1F (t b c d : Nat) : Nat :=
  if t < 20 then (b &&& c) ||| ((b ^^^ 0xFFFFFFFF) &&& d)
  else if t < 40 then b ^^^ c ^^^ d
  else if t < 60 then (b &&& c) ||| (b &&& d) ||| (c &&& d)
  else b ^^^ c ^^^ d

/-- Round constant `K_t`. -/
def sha1K (t : Nat) : Nat :=
  if t < 20 then 0x5A827999
  else if t < 40 then 0x6ED9EBA1
  else if t < 60 then 0x8F1BBCDC
  else 0xCA62C1D6

/-- The five chaining words. -/
structure Sha1State where
  h0 : Nat
  h1 : Nat
  h2 : Nat
  h3 : Nat
  h4 : Nat
deriving DecidableEq, Repr

/-- Initial hash value. -/
def sha1Init : Sha1State :=
  ⟨0x67452301, 0xEFCDAB89, 0x98BADCFE, 0x10325476, 0xC3D2E1F0⟩

/-- One of the eighty rounds on the working variables `(a, b, c, d, e)`. -/
def sha1Round (w : List Nat) (s : Sha1State) (t : Nat) : Sha1State :=
  ⟨(rotl32 s.h0 5 + sha1F t s.h1 s.h2 s.h3 + s.h4 + sha1K t + w.getD t 0) % 2 ^ 32,
    s.h0, rotl32 s.h1 30, s.h2, s.h3⟩

/-- Compression of one 64-byte block into the chaining state. -/
def sha1Block (h : Sha1State) (block : List Nat) : Sha1State :=
  let w := sha1Schedule (blockWords block)
  let r := (List.range 80).foldl (sha1Round w) h
  ⟨(h.h0 + r.h0) % 2 ^ 32, (h.h1 + r.h1) % 2 ^ 32, (h.h2 + r.h2) % 2 ^ 32,
    (h.h3 + r.h3) % 2 ^ 32, (h.h4 + r.h4) % 2 ^ 32⟩

/-- The chaining state after all blocks of the padded message. -/
def sha1 (msg : Buffer) : Sha1State :=
  let padded := sha1Pad msg
  (List.range (padded.length / 64)).foldl
    (fun h i => sha1Block h ((padded.drop (64 * i)).take 64)) sha1Init

/-- Code unit of one lower-case hexadecimal digit. -/
def hexDigit (d : Nat) : Nat :=
  if d % 16 < 10 then 48 + d % 16 else 87 + d % 16

/-- Eight hexadecimal digits of a 32-bit word, most significant first. -/
def hexWord (w : Nat) : JSString :=
  (List.range 8).map fun i => hexDigit (w / 16 ^ (7 - i))

/-- The value of `shasum.digest('hex')` after the bytes `msg` were fed: 40 hex digits. -/
def sha1Hex (msg : Buffer) : JSString :=
  let s := sha1 msg
  hexWord s.h0 ++ hexWord s.h1 ++ hexWord s.h2 ++ hexWord s.h3 ++ hexWord s.h4

/-! ## Promises -/

/-- A JavaScript error value, identified by its message. -/
abbrev JSError := JSString

/-- How a call that hands back a promise ends: the promise is fulfilled, is
rejected, never settles, or the call itself throws before returning. -/
inductive Outcome (α : Type) where
  | resolved (v : α)
  | rejected (e : JSError)
  | pending
  | threw (e : JSError)
deriving DecidableEq, Repr

/-- The promise `p.then(f)` for a pure callback `f`. -/
def Outcome.thenMap {α β : Type} (p : Outcome α) (f : α → β) : Outcome β :=
  match p with
  | .resolved v => .resolved (f v)
  | .rejected e => .rejected e
  | .pending => .pending
  | .threw e => .threw e

/-- The error an outcome fails with, if it fails. -/
def Outcome.failure {α : Type} : Outcome α → Option JSError
  | .rejected e => some e
  | .threw e => some e
  | _ => none

/-- What a `.then` callback contributes to the chained promise: a throw inside
the callback rejects the chained promise. -/
def Outcome.adopt {α : Type} : Outcome α → Outcome α
  | .threw e => .rejected e
  | o => o

/-! ## The environment -/

deriving instance DecidableEq for Except

/-- What one `fs.createReadStream(file)` emits: its `data` chunks in order,
then `end`, or `error` when `failure` is set. -/
structure ReadScript where
  chunks : List Buffer
  failure : Option JSError
deriving DecidableEq, Repr

/-- File attributes inspected by the module: modification time in milliseconds since the epoch. -/
structure Stats where
  mtime : Int
deriving DecidableEq, Repr

/-- One call `child_process.spawn(cmd, options)`; `cwd` is `options.cwd` when options are passed. -/
structure SpawnCall where
  cmd : JSString
  cwd : Option JSString
deriving DecidableEq, Repr

/-- Which of the two listened-for events a spawned child emits, if any. -/
inductive SpawnOutcome where
  | finish
  | error (e : JSError)
  | silent
deriving DecidableEq, Repr

/-- Everything outside the module that its functions consult. -/
structure Env where
  /-- Value of `process.cwd()`. -/
  cwd : JSString
  /-- Event script of the stream opened on a path. -/
  createReadStream : JSString → ReadScript
  /-- The library function `changeCase.paramCase`. -/
  paramCase : JSString → JSString
  /-- Result of `fs.statAsync` on a path. -/
  stat : JSString → Except JSError Stats
  /-- Event emitted by a spawned child. -/
  spawn : SpawnCall → SpawnOutcome

/-! ## `Array.prototype.sort` with the default comparison -/

/-- Default sort order on strings: lexicographic on UTF-16 code units. -/
def jsStringLe : JSString → JSString → Bool
  | [], _ => true
  | _ :: _, [] => false
  | a :: as, b :: bs => a < b || (a == b && jsStringLe as bs)

/-- The array after `files.sort()`. -/
def jsSort (files : List JSString) : List JSString :=
  files.insertionSort (fun a b => jsStringLe a b = true)

/-! ## `generateHash` -/

/-- An event of a read stream. -/
inductive StreamEvent where
  | data (chunk : Buffer)
  | finished
  | error (e : JSError)
deriving DecidableEq, Repr

/-- The events a stream will emit, in order. -/
def ReadScript.events (s : ReadScript) : List StreamEvent :=
  s.chunks.map StreamEvent.data ++
    [match s.failure with
     | none => StreamEvent.finished
     | some e => StreamEvent.error e]

/-- State of one `generateHash` call while its streams are flowing. -/
structure HashRun where
  /-- Bytes passed to `shasum.update` so far, in call order. -/
  shasum : Buffer
  /-- Events each stream has still to emit, by position in `ordered_files`. -/
  streams : List (List StreamEvent)
  /-- The first rejection among the per-file promises. -/
  rejection : Option JSError
deriving DecidableEq, Repr

/-- The event loop delivers the next event of stream `i` to its listener. -/
def HashRun.deliver (r : HashRun) (i : Nat) : HashRun :=
  match r.streams[i]? with
  | some (ev :: rest) =>
    let r1 : HashRun := { r with streams := r.streams.set i rest }
    match ev with
    | .data chunk => { r1 with shasum := r1.shasum ++ chunk }
    | .finished => r1
    | .error e =>
      match r1.rejection with
      | none => { r1 with rejection := some e }
      | some _ => r1
  | _ => r

/-- A schedule (the stream whose event is delivered next, step by step)
delivers every event of every stream. -/
def scheduleComplete (schedule : List Nat) (streams : List (List StreamEvent)) : Bool :=
  (List.range streams.length).all fun i =>
    decide ((streams[i]?.getD []).length ≤ schedule.count i)

/-- The streams `generateHash` opens: one per element of `ordered_files`. -/
def openStreams (env : Env) (files : List JSString) : List (List StreamEvent) :=
  let ordered_files := jsSort files
  ordered_files.map fun file => (env.createReadStream file).events

/-- The function `generateHash(files)`: the outcome of the returned promise
under a given delivery schedule of the stream events.  One stream per element
of `ordered_files` is opened at once; every `data` listener updates the one
`shasum`; the promise of a file is fulfilled by `end` and rejected by `error`;
`Promise.all` of these promises is followed by `shasum.digest('hex')`. -/
def generateHash (env : Env) (schedule : List Nat) (files : List JSString) : Outcome JSString :=
  let start : HashRun := { shasum := [], streams := openStreams env files, rejection := none }
  let fin := schedule.foldl HashRun.deliver start
  match fin.rejection with
  | some e => .rejected e
  | none =>
    if fin.streams.all List.isEmpty then .resolved (sha1Hex fin.shasum) else .pending

/-- String method `substr(start, length)` for a non-negative `start`. -/
def substr (s : JSString) (start length : Nat) : JSString :=
  (s.drop start).take length

/-- Argument object of `getName`. -/
structure GetNameOptions where
  files : List JSString
  recipient_name : JSString

/-- The method `getName(options)`; `pre` stands for the source's variable `prefix`. -/
def getName (env : Env) (schedule : List Nat) (options : GetNameOptions) : Outcome JSString :=
  let files := options.files
  let pre := env.paramCase options.recipient_name
  (generateHash env schedule files).thenMap fun hash => pre ++ js "_" ++ substr hash 0 10

/-! ## The POSIX flavour of Node's `path` module

Paths are scanned from their right end, as the library does: trailing
separators are skipped, then the final component is read up to the previous
separator.  Code unit 47 is the separator and 46 the dot. -/

/-- The pieces of a path between separators; `n` separators give `n + 1` pieces. -/
def splitSlash : JSString → List JSString
  | [] => [[]]
  | c :: cs =>
    if c = 47 then [] :: splitSlash cs
    else
      match splitSlash cs with
      | [] => [[c]]
      | s :: ss => (c :: s) :: ss

/-- One piece handled by `normalizeString`; `res` holds the kept pieces, last one first.
Empty pieces and `.` are skipped, `..` removes the last kept piece (or is kept
itself when the path may climb above its start), any other piece is kept. -/
def normalizeStep (allowAboveRoot : Bool) (res : List JSString) (seg : JSString) :
    List JSString :=
  if seg = [] ∨ seg = [46] then res
  else if seg = [46, 46] then
    match res with
    | [] => if allowAboveRoot then [seg] else []
    | top :: rest =>
      if top = [46, 46] then (if allowAboveRoot then seg :: res else res) else rest
  else seg :: res

/-- The kept pieces of a path, last one first. -/
def normalizeSegments (allowAboveRoot : Bool) (path : JSString) : List JSString :=
  (splitSlash path).foldl (normalizeStep allowAboveRoot) []

/-- The library helper `normalizeString(path, allowAboveRoot)`. -/
def normalizeString (path : JSString) (allowAboveRoot : Bool) : JSString :=
  List.intercalate [47] (normalizeSegments allowAboveRoot path).reverse

/-- One turn of the right-to-left loop of `path.resolve`: an empty argument is
skipped, any other is put in front until an absolute one has been met. -/
def resolveStep (path : JSString) (acc : JSString × Bool) : JSString × Bool :=
  if acc.2 then acc
  else if path = [] then acc
  else (path ++ 47 :: acc.1, path.head? = some 47)

/-- The function `path.resolve(...args)` in a process whose working directory is `cwd`. -/
def resolve (cwd : JSString) (args : List JSString) : JSString :=
  let joined := (cwd :: args).foldr resolveStep ([], false)
  let resolvedPath := normalizeString joined.1 (!joined.2)
  if joined.2 then 47 :: resolvedPath
  else if resolvedPath = [] then [46]
  else resolvedPath

/-- A path read from its right end with the trailing separators removed. -/
def trimmedRev (path : JSString) : List Nat :=
  path.reverse.dropWhile (· == 47)

/-- The final component of a path, reversed. -/
def lastPartRev (path : JSString) : List Nat :=
  (trimmedRev path).takeWhile (· != 47)

/-- What precedes the final component (ending in a separator unless empty), reversed. -/
def beforeRev (path : JSString) : List Nat :=
  (trimmedRev path).dropWhile (· != 47)

/-- The function `path.basename(path)`. -/
def basename (path : JSString) : JSString :=
  (lastPartRev path).reverse

/-- The function `path.dirname(path)`. -/
def dirname (path : JSString) : JSString :=
  if path = [] then [46]
  else
    match beforeRev path with
    | [] => if path.head? = some 47 then [47] else [46]
    | _ :: dirRev =>
      if dirRev = [] then [47]
      else if dirRev = [47] then [47, 47]
      else dirRev.reverse

/-- The function `path.extname(path)`: from the last dot of the final component
to its end, or empty when there is no dot, when the component starts with its
only dot, or when the component is `..`. -/
def extname (path : JSString) : JSString :=
  let base := basename path
  let afterDot := (lastPartRev path).takeWhile (· != 46)
  if afterDot.length = base.length then []
  else
    let startDot := base.length - afterDot.length - 1
    if startDot = 0 then []
    else if base = [46, 46] then []
    else base.drop startDot

/-- How the right-to-left comparison of a component with a suffix ends. -/
inductive SuffixMatch where
  | matched (restRev : List Nat)
  | mismatch
  | exhausted
deriving DecidableEq, Repr

/-- Compare a reversed component with a reversed suffix, unit by unit. -/
def matchSuffix : List Nat → List Nat → SuffixMatch
  | rest, [] => .matched rest
  | [], _ :: _ => .exhausted
  | b :: bs, e :: es => if b = e then matchSuffix bs es else .mismatch

/-- The function `path.basename(path, suffix)`. -/
def basenameExt (path suffix : JSString) : JSString :=
  if suffix ≠ [] ∧ suffix.length ≤ path.length then
    if suffix = path then []
    else
      match matchSuffix (lastPartRev path) suffix.reverse with
      | .matched restRev => if restRev = [] then basename path else restRev.reverse
      | .mismatch => basename path
      | .exhausted => path.drop (beforeRev path).length
  else basename path

/-- The `name` field of `path.parse(path)`.  The scan stops after index 1 on an
absolute path, and the test for a `..` component compares the dot position
with the recorded start of the component, which stays 0 when no separator was
met during the scan. -/
def parseName (path : JSString) : JSString :=
  if path = [] then []
  else
    let isAbsolute : Bool := path.head? = some 47
    let scanned := if isAbsolute then path.tail else path
    let base := basename scanned
    let afterDot := (lastPartRev scanned).takeWhile (· != 46)
    if afterDot.length = base.length then base
    else
      let startDot := base.length - afterDot.length - 1
      if startDot = 0 then base
      else if base = [46, 46] ∧ (beforeRev scanned ≠ [] ∨ isAbsolute = false) then base
      else base.take startDot

/-! ## `compile` -/

/-- A call of a strategy function: how it ends and the processes it spawned. -/
structure Invocation (α : Type) where
  outcome : Outcome α
  spawned : List SpawnCall

/-- The promise a `spawn(...).on('finish', ...).on('error', ...)` wiring settles. -/
def spawnOutcome (env : Env) (call : SpawnCall) (fulfilled_value : JSString) : Outcome JSString :=
  match env.spawn call with
  | .finish => .resolved fulfilled_value
  | .error e => .rejected e
  | .silent => .pending

/-- The variable `compiled_doc` of `isPdfFresh`: the artifact whose age is checked. -/
def isPdfFresh.compiled_doc (env : Env) (tex_doc : JSString) : JSString :=
  resolve env.cwd [dirname tex_doc, basenameExt tex_doc (extname tex_doc) ++ js ".pdf"]

/-- The helper `isPdfFresh(tex_doc)` of the default compiler: both `stat`
calls are chained, and the `catch` handler answers `false` for a failure of either. -/
def isPdfFresh (env : Env) (tex_doc : JSString) : Outcome Bool :=
  let compiled_doc := isPdfFresh.compiled_doc env tex_doc
  match env.stat compiled_doc with
  | .error _ => .resolved false
  | .ok compiled_doc_stats =>
    match env.stat tex_doc with
    | .error _ => .resolved false
    | .ok tex_doc_stats =>
      if tex_doc_stats.mtime < compiled_doc_stats.mtime then .resolved true
      else .resolved false

/-- The variable `fulfilled_value` of `makePdf`: the artifact path it resolves with. -/
def makePdf.fulfilled_value (env : Env) (tex_doc : JSString) : JSString :=
  let pdf_output_filename := parseName tex_doc ++ js ".pdf"
  resolve env.cwd [tex_doc, js "..", pdf_output_filename]

/-- The `spawn` call of `makePdf`: the command line and the working directory option. -/
def makePdf.call (env : Env) (tex_doc : JSString) : SpawnCall :=
  let latex_command := js "pdflatex"
  let cmd := latex_command ++ js " " ++ tex_doc
  { cmd := cmd, cwd := some (resolve env.cwd [tex_doc, js ".."]) }

/-- The helper `makePdf(tex_doc, skip)` of the default compiler. -/
def makePdf (env : Env) (tex_doc : JSString) (skip : Bool) : Invocation JSString :=
  let fulfilled_value := makePdf.fulfilled_value env tex_doc
  if skip then { outcome := .resolved fulfilled_value, spawned := [] }
  else
    { outcome := spawnOutcome env (makePdf.call env tex_doc) fulfilled_value,
      spawned := [makePdf.call env tex_doc] }

/-- The default strategy `defaults.texCompiler(tex_doc)`. -/
def defaults.texCompiler (env : Env) (tex_doc : JSString) : Invocation JSString :=
  match isPdfFresh env tex_doc with
  | .resolved isFresh => makePdf env tex_doc isFresh
  | .rejected e => { outcome := .rejected e, spawned := [] }
  | .pending => { outcome := .pending, spawned := [] }
  | .threw e => { outcome := .threw e, spawned := [] }

/-- Element `i` of an array of strings inside a string concatenation. -/
def elementText (xs : List JSString) (i : Nat) : JSString :=
  xs.getD i (js "undefined")

/-- The variable `recipient_name` of `compile`. -/
def compile.recipient_name (env : Env) (coverletter : JSString) : JSString :=
  basename (resolve env.cwd [coverletter, js ".."])

/-- The variable `output_file` of the default merger. -/
def defaults.pdfMerger.output_file (env : Env) (coverletter recipient_name : JSString) :
    JSString :=
  resolve env.cwd [coverletter, js "..", recipient_name] ++ js ".pdf"

/-- The default strategy `defaults.pdfMerger(pdf_files)`, closed over the
`coverletter` and `recipient_name` variables of `compile`. -/
def defaults.pdfMerger (env : Env) (coverletter recipient_name : JSString)
    (pdf_files : List JSString) : Invocation JSString :=
  let coverletter_pdf := elementText pdf_files 0
  let resume_pdf := elementText pdf_files 1
  let output_file := defaults.pdfMerger.output_file env coverletter recipient_name
  let cmd := js "gs -dBATCH -dNOPAUSE -sDEVICE=pdfwrite -sOutputFile=" ++ output_file
    ++ js " " ++ coverletter_pdf ++ js " " ++ resume_pdf
  let call : SpawnCall := { cmd := cmd, cwd := none }
  { outcome := spawnOutcome env call output_file, spawned := [call] }

/-- A compile strategy as `Array.prototype.map` calls it: element, index, array. -/
abbrev TexCompiler := JSString → Nat → List JSString → Invocation JSString

/-- A merge strategy: from the array of compile results to the merged file. -/
abbrev PdfMerger := List JSString → Invocation JSString

/-- Argument object of `compile`. -/
structure CompileOptions where
  coverletter : JSString
  resume : JSString
  texCompiler : Option TexCompiler
  pdfMerger : Option PdfMerger

/-- What one call of `compile` did. -/
structure CompileRun where
  /-- How the call ends. -/
  outcome : Outcome JSString
  /-- Documents the compile strategy was called on, in call order. -/
  texCompilerCalls : List JSString
  /-- Arguments of the calls of the merge strategy, in call order. -/
  pdfMergerCalls : List (List JSString)
  /-- Processes spawned, grouped by strategy call. -/
  spawned : List SpawnCall

/-- The promise `Promise.all([p, q])`: fulfilled with both values in array
order once both are fulfilled, rejected with the first rejection to happen. -/
def promiseAll {α : Type} (secondSettlesFirst : Bool) (p q : Outcome α) : Outcome (List α) :=
  match p, q with
  | .resolved a, .resolved b => .resolved [a, b]
  | .rejected e, .rejected f => .rejected (if secondSettlesFirst then f else e)
  | .rejected e, _ => .rejected e
  | _, .rejected f => .rejected f
  | _, _ => .pending

/-- The strategy `options.texCompiler || defaults.texCompiler`. -/
def effectiveTexCompiler (env : Env) (options : CompileOptions) : TexCompiler :=
  options.texCompiler.getD fun tex_doc _ _ => defaults.texCompiler env tex_doc

/-- The strategy `options.pdfMerger || defaults.pdfMerger`. -/
def effectivePdfMerger (env : Env) (options : CompileOptions) : PdfMerger :=
  let recipient_name := compile.recipient_name env options.coverletter
  options.pdfMerger.getD (defaults.pdfMerger env options.coverletter recipient_name)

/-- The method `compile(options)`; `resumeSettlesFirst` tells which of the two
compile promises settles first. -/
def compile (env : Env) (resumeSettlesFirst : Bool) (options : CompileOptions) : CompileRun :=
  let coverletter := options.coverletter
  let resume := options.resume
  let texCompiler := effectiveTexCompiler env options
  let pdfMerger := effectivePdfMerger env options
  let docs := [coverletter, resume]
  let first := texCompiler coverletter 0 docs
  match first.outcome with
  | .threw e =>
    { outcome := .threw e, texCompilerCalls := [coverletter], pdfMergerCalls := [],
      spawned := first.spawned }
  | _ =>
    let second := texCompiler resume 1 docs
    match second.outcome with
    | .threw e =>
      { outcome := .threw e, texCompilerCalls := docs, pdfMergerCalls := [],
        spawned := first.spawned ++ second.spawned }
    | _ =>
      match promiseAll resumeSettlesFirst first.outcome second.outcome with
      | .resolved pdf_files =>
        let merged := pdfMerger pdf_files
        { outcome := merged.outcome.adopt, texCompilerCalls := docs,
          pdfMergerCalls := [pdf_files],
          spawned := first.spawned ++ second.spawned ++ merged.spawned }
      | .rejected e =>
        { outcome := .rejected e, texCompilerCalls := docs, pdfMergerCalls := [],
          spawned := first.spawned ++ second.spawned }
      | _ =>
        { outcome := .pending, texCompilerCalls := docs, pdfMergerCalls := [],
          spawned := first.spawned ++ second.spawned }


/-! ## Notions used in the statements -/

/-- Code units of the sixteen lower-case hexadecimal digits. -/
def isHexDigit (c : Nat) : Bool :=
  (48 ≤ c && c ≤ 57) || (97 ≤ c && c ≤ 102)

/-- No stream script holds an `error` event and no promise was rejected so far. -/
def HashRun.clean (r : HashRun) : Prop :=
  r.rejection = none ∧ ∀ s ∈ r.streams, ∀ ev ∈ s, ∀ e, ev ≠ StreamEvent.error e

/-- A piece that `normalizeString` keeps: not empty, not `.`, not `..`. -/
def Plain (seg : JSString) : Prop :=
  seg ≠ [] ∧ seg ≠ [46] ∧ seg ≠ [46, 46]

instance (seg : JSString) : Decidable (Plain seg) :=
  inferInstanceAs (Decidable (seg ≠ [] ∧ seg ≠ [46] ∧ seg ≠ [46, 46]))

/-- The final component of the path is the name of a file: not empty, not `.`, not `..`. -/
def NamesFile (tex_doc : JSString) : Prop :=
  Plain (basename tex_doc)

instance (tex_doc : JSString) : Decidable (NamesFile tex_doc) :=
  inferInstanceAs (Decidable (Plain (basename tex_doc)))

/-- The kept pieces after the pieces of `p` were handled on top of the kept pieces `res`,
for a path that may not climb above the root. -/
def stackOf (res : List JSString) (p : JSString) : List JSString :=
  (splitSlash p).foldl (normalizeStep false) res

/-- The kept pieces while the arguments of `path.resolve` are read left to right: an
absolute argument starts afresh, any other continues from the pieces kept so far. -/
def resolveStack (res : List JSString) (args : List JSString) : List JSString :=
  args.foldl (fun res a => if a.head? = some 47 then stackOf [] a else stackOf res a) res

/-- Every kept piece is a plain name without a separator. -/
def Kept (res : List JSString) : Prop :=
  ∀ s ∈ res, Plain s ∧ 47 ∉ s

/-- The bytes an event hands to `shasum.update`: the chunk of a `data` event. -/
def StreamEvent.bytes : StreamEvent → Buffer
  | .data chunk => chunk
  | _ => []

/-- The schedule that delivers every event of the first stream, then every event of
the second, and so on; `i` is the position of the first stream of the list. -/
def inOrderFrom (i : Nat) : List (List StreamEvent) → List Nat
  | [] => []
  | s :: rest => List.replicate s.length i ++ inOrderFrom (i + 1) rest

/-- The schedule under which the streams are read one after the other, in array order. -/
def inOrderSchedule (streams : List (List StreamEvent)) : List Nat :=
  inOrderFrom 0 streams

/-- The bytes of a file: its chunks joined. -/
def ReadScript.contents (s : ReadScript) : Buffer :=
  s.chunks.flatten

/-- An `error` event is still to come, or a promise was rejected already. -/
def HashRun.doomed (r : HashRun) : Prop :=
  r.rejection ≠ none ∨
    ∃ (i : Nat) (s : List StreamEvent) (e : JSError),
      r.streams[i]? = some s ∧ StreamEvent.error e ∈ s

/-- Every error in sight satisfies `P`. -/
def HashRun.errorsIn (P : JSError → Prop) (r : HashRun) : Prop :=
  (∀ e, r.rejection = some e → P e) ∧
    ∀ s ∈ r.streams, ∀ e, StreamEvent.error e ∈ s → P e

/-! ## Sample environments -/

/-- Not `paramCase` itself: the stand-in the sample environment uses for it.  It lowers
the letters A to Z and does nothing else, so it agrees with `paramCase` on a label
made of one ASCII word such as `Test`, and differs from it on `TestCo` or `Jane Doe`,
where `paramCase` also puts hyphens between the words. -/
def lowerAscii (s : JSString) : JSString :=
  s.map fun c => if 65 ≤ c ∧ c ≤ 90 then c + 32 else c

/-- A project checked out at `/home/user/coverall`: the two TeX sources were modified
at time 2000 and no artifact exists yet; `a.txt` holds the bytes 1, 2 and `b.txt` the
byte 3, each read in one chunk; spawned children emit neither event. -/
def sampleEnv : Env where
  cwd := js "/home/user/coverall"
  createReadStream := fun file =>
    if file = js "a.txt" then { chunks := [[1, 2]], failure := none }
    else if file = js "b.txt" then { chunks := [[3]], failure := none }
    else { chunks := [], failure := some (js "ENOENT") }
  paramCase := lowerAscii
  stat := fun path =>
    if path = js "cv/letter.tex" ∨ path = js "cv/resume.tex" then .ok { mtime := 2000 }
    else .error (js "ENOENT")
  spawn := fun _ => .silent

/-- The sample project after a build that left both artifacts with modification time
`pdfMtime`. -/
def builtEnv (pdfMtime : Int) : Env :=
  { sampleEnv with
    stat := fun path =>
      if path = js "/home/user/coverall/cv/letter.pdf"
          ∨ path = js "/home/user/coverall/cv/resume.pdf" then .ok { mtime := pdfMtime }
      else if path = js "cv/letter.tex" ∨ path = js "cv/resume.tex" then .ok { mtime := 2000 }
      else .error (js "ENOENT") }

/-- The sample project on a machine where no child process can be started. -/
def brokenEnv : Env :=
  { sampleEnv with spawn := fun _ => .error (js "spawn ENOENT") }

/-- The sample project when the directory path `..` is handed in as a document: a file
`...pdf` modified at time 3000 lies in the working directory, the directory `..` was
modified at time 2000, and nothing else exists. -/
def dotdotEnv : Env :=
  { sampleEnv with
    stat := fun path =>
      if path = js "/home/user/coverall/...pdf" then .ok { mtime := 3000 }
      else if path = js ".." then .ok { mtime := 2000 }
      else .error (js "ENOENT") }

/-- A `compile` request with two injected test doubles: a compiler fulfilled with the
document path followed by `.pdf`, and a merger fulfilled with `merged.pdf`; neither
spawns a process. -/
def stubOptions : CompileOptions where
  coverletter := js "cv/letter.tex"
  resume := js "cv/resume.tex"
  texCompiler := some fun tex_doc _ _ =>
    { outcome := .resolved (tex_doc ++ js ".pdf"), spawned := [] }
  pdfMerger := some fun _ => { outcome := .resolved (js "merged.pdf"), spawned := [] }

/-- A `compile` request for the sample project with both default strategies. -/
def sampleOptions : CompileOptions where
  coverletter := js "cv/letter.tex"
  resume := js "cv/resume.tex"
  texCompiler := none
  pdfMerger := none

/-! # Theorems -/

/-! ### Sorting -/

theorem jsStringLe_total (a b : JSString) : jsStringLe a b = true ∨ jsStringLe b a = true := by
  induction a generalizing b with
  | nil => simp [jsStringLe]
  | cons x xs ih =>
    cases b with
    | nil => simp [jsStringLe]
    | cons y ys =>
      simp only [jsStringLe, Bool.or_eq_true, Bool.and_eq_true, decide_eq_true_eq, beq_iff_eq]
      rcases Nat.lt_trichotomy x y with h | h | h
      · exact Or.inl (Or.inl h)
      · subst h
        rcases ih ys with h | h
        · exact Or.inl (Or.inr ⟨rfl, h⟩)
        · exact Or.inr (Or.inr ⟨rfl, h⟩)
      · exact Or.inr (Or.inl h)

theorem jsStringLe_trans (a b c : JSString) (hab : jsStringLe a b = true)
    (hbc : jsStringLe b c = true) : jsStringLe a c = true := by
  induction a generalizing b c with
  | nil => simp [jsStringLe]
  | cons x xs ih =>
    cases b with
    | nil => simp [jsStringLe] at hab
    | cons y ys =>
      cases c with
      | nil => simp [jsStringLe] at hbc
      | cons z zs =>
        simp only [jsStringLe, Bool.or_eq_true, Bool.and_eq_true, decide_eq_true_eq,
          beq_iff_eq] at hab hbc ⊢
        rcases hab with h1 | ⟨h1, h1'⟩ <;> rcases hbc with h2 | ⟨h2, h2'⟩
        · exact Or.inl (by omega)
        · exact Or.inl (by omega)
        · exact Or.inl (by omega)
        · exact Or.inr ⟨by omega, ih ys zs h1' h2'⟩

theorem jsStringLe_antisymm (a b : JSString) (hab : jsStringLe a b = true)
    (hba : jsStringLe b a = true) : a = b := by
  induction a generalizing b with
  | nil =>
    cases b with
    | nil => rfl
    | cons y ys => simp [jsStringLe] at hba
  | cons x xs ih =>
    cases b with
    | nil => simp [jsStringLe] at hab
    | cons y ys =>
      simp only [jsStringLe, Bool.or_eq_true, Bool.and_eq_true, decide_eq_true_eq,
        beq_iff_eq] at hab hba
      rcases hab with h1 | ⟨h1, h1'⟩ <;> rcases hba with h2 | ⟨h2, h2'⟩
      · omega
      · omega
      · omega
      · rw [h1, ih ys h1' h2']

/-- Sorting forgets the order the paths were given in. -/
theorem jsSort_perm {files files' : List JSString} (h : files.Perm files') :
    jsSort files = jsSort files' := by
  haveI : IsTotal JSString (fun a b => jsStringLe a b = true) := ⟨jsStringLe_total⟩
  haveI : IsTrans JSString (fun a b => jsStringLe a b = true) := ⟨jsStringLe_trans⟩
  haveI : IsAntisymm JSString (fun a b => jsStringLe a b = true) := ⟨jsStringLe_antisymm⟩
  apply List.eq_of_perm_of_sorted (r := fun a b => jsStringLe a b = true)
  · exact ((List.perm_insertionSort _ files).trans h).trans (List.perm_insertionSort _ files').symm
  · exact List.sorted_insertionSort _ files
  · exact List.sorted_insertionSort _ files'

/-! ### The digest is forty hexadecimal digits -/

theorem isHexDigit_hexDigit (d : Nat) : isHexDigit (hexDigit d) = true := by
  unfold hexDigit isHexDigit
  have := Nat.mod_lt d (show 0 < 16 by decide)
  split <;> simp <;> omega

theorem hexWord_length (w : Nat) : (hexWord w).length = 8 := by
  simp [hexWord]

theorem hexWord_isHex (w : Nat) : ∀ c ∈ hexWord w, isHexDigit c = true := by
  intro c hc
  simp only [hexWord, List.mem_map] at hc
  obtain ⟨i, -, rfl⟩ := hc
  exact isHexDigit_hexDigit _

theorem sha1Hex_length (msg : Buffer) : (sha1Hex msg).length = 40 := by
  simp [sha1Hex, hexWord_length]

theorem sha1Hex_isHex (msg : Buffer) : ∀ c ∈ sha1Hex msg, isHexDigit c = true := by
  intro c hc
  simp only [sha1Hex, List.mem_append] at hc
  rcases hc with (((h | h) | h) | h) | h <;> exact hexWord_isHex _ c h

/-! ### Delivery of stream events -/

theorem deliver_streams_length (r : HashRun) (j : Nat) :
    (r.deliver j).streams.length = r.streams.length := by
  unfold HashRun.deliver
  split
  · next ev rest h =>
    cases ev <;> simp
    split <;> simp
  · rfl

theorem deliver_streams (r : HashRun) (j : Nat) :
    (r.deliver j).streams
      = match r.streams[j]? with
        | some (_ :: rest) => r.streams.set j rest
        | _ => r.streams := by
  unfold HashRun.deliver
  split
  · next ev rest h =>
    cases ev <;> simp
    split <;> simp
  · rfl

theorem deliver_remaining (r : HashRun) (i j : Nat) :
    ((r.deliver j).streams[i]?.getD []).length
      = (r.streams[i]?.getD []).length - (if i = j then 1 else 0) := by
  rw [deliver_streams]
  split
  · next ev rest h =>
    by_cases hij : i = j
    · subst hij
      have hlt : i < r.streams.length := by
        rcases Nat.lt_or_ge i r.streams.length with h1 | h1
        · exact h1
        · rw [List.getElem?_eq_none h1] at h
          cases h
      simp [h, List.getElem?_set_self, hlt]
    · have : j ≠ i := fun h => hij h.symm
      simp [hij, List.getElem?_set_ne this]
  · next h =>
    by_cases hij : i = j
    · subst hij
      rcases hr : r.streams[i]? with _ | s
      · simp
      · cases s with
        | nil => simp
        | cons ev rest => exact absurd hr (h _ _)
    · simp [hij]

theorem foldl_deliver_remaining (schedule : List Nat) (r : HashRun) (i : Nat) :
    (((schedule.foldl HashRun.deliver r).streams)[i]?.getD []).length
      = (r.streams[i]?.getD []).length - schedule.count i := by
  induction schedule generalizing r with
  | nil => simp
  | cons j js ih =>
    rw [List.foldl_cons, ih, deliver_remaining, List.count_cons]
    by_cases hij : i = j
    · subst hij
      simp
      omega
    · have : (j == i) = false := by simpa using fun h => hij h.symm
      simp [hij, this]

theorem foldl_deliver_length (schedule : List Nat) (r : HashRun) :
    (schedule.foldl HashRun.deliver r).streams.length = r.streams.length := by
  induction schedule generalizing r with
  | nil => rfl
  | cons j js ih => rw [List.foldl_cons, ih, deliver_streams_length]

/-- A complete schedule leaves no stream with an undelivered event. -/
theorem foldl_deliver_all_empty (schedule : List Nat) (r : HashRun)
    (h : scheduleComplete schedule r.streams = true) :
    (schedule.foldl HashRun.deliver r).streams.all List.isEmpty = true := by
  rw [List.all_eq_true]
  intro s hs
  obtain ⟨i, hi, rfl⟩ := List.getElem_of_mem hs
  rw [foldl_deliver_length] at hi
  have hrem := foldl_deliver_remaining schedule r i
  simp only [scheduleComplete, List.all_eq_true, List.mem_range, decide_eq_true_eq] at h
  have hle := h i hi
  have hi' : i < (schedule.foldl HashRun.deliver r).streams.length := by
    rw [foldl_deliver_length]; exact hi
  rw [List.getElem?_eq_getElem hi'] at hrem
  simp only [Option.getD_some] at hrem
  have : ((schedule.foldl HashRun.deliver r).streams[i]).length = 0 := by omega
  simpa [List.isEmpty_iff] using List.length_eq_zero.mp this

theorem deliver_clean (r : HashRun) (j : Nat) (h : r.clean) : (r.deliver j).clean := by
  obtain ⟨hrej, hev⟩ := h
  have hstreams : ∀ s ∈ (r.deliver j).streams, ∀ ev ∈ s, ∀ e, ev ≠ StreamEvent.error e := by
    rw [deliver_streams]
    split
    · next ev rest hj =>
      intro s hs
      rcases List.mem_or_eq_of_mem_set hs with h1 | h1
      · exact hev s h1
      · subst h1
        intro ev' hev'
        exact hev _ (List.getElem?_mem hj) ev' (List.mem_cons_of_mem _ hev')
    · exact hev
  refine ⟨?_, hstreams⟩
  unfold HashRun.deliver
  split
  · next ev rest hj =>
    cases ev with
    | data chunk => exact hrej
    | finished => exact hrej
    | error e =>
      exact absurd rfl (hev _ (List.getElem?_mem hj) (StreamEvent.error e)
        (List.mem_cons_self _ _) e)
  · exact hrej

theorem foldl_deliver_clean (schedule : List Nat) (r : HashRun) (h : r.clean) :
    (schedule.foldl HashRun.deliver r).clean := by
  induction schedule generalizing r with
  | nil => exact h
  | cons j js ih => exact ih _ (deliver_clean r j h)

/-! ### Splitting at separators -/

theorem splitSlash_ne_nil (p : JSString) : splitSlash p ≠ [] := by
  cases p with
  | nil => simp [splitSlash]
  | cons c cs =>
    unfold splitSlash
    split
    · simp
    · split <;> simp

theorem splitSlash_append_slash (a b : JSString) :
    splitSlash (a ++ 47 :: b) = splitSlash a ++ splitSlash b := by
  induction a with
  | nil => simp [splitSlash]
  | cons c cs ih =>
    by_cases hc : c = 47
    · simp [splitSlash, hc, ih]
    · rcases hs : splitSlash cs with _ | ⟨s, ss⟩
      · exact absurd hs (splitSlash_ne_nil cs)
      · simp [splitSlash, hc, ih, hs]

theorem splitSlash_of_not_mem (s : JSString) (h : 47 ∉ s) : splitSlash s = [s] := by
  induction s with
  | nil => rfl
  | cons c cs ih =>
    have hc : c ≠ 47 := fun hc => h (by simp [hc])
    have hcs : 47 ∉ cs := fun hcs => h (List.mem_cons_of_mem _ hcs)
    simp [splitSlash, hc, ih hcs]

theorem splitSlash_replicate (k : Nat) :
    splitSlash (List.replicate k 47) = List.replicate (k + 1) [] := by
  induction k with
  | zero => rfl
  | succ k ih => simp [List.replicate_succ, splitSlash, ih]

theorem splitSlash_append_replicate (s : JSString) (k : Nat) :
    splitSlash (s ++ List.replicate k 47) = splitSlash s ++ List.replicate k [] := by
  cases k with
  | zero => simp
  | succ k =>
    rw [List.replicate_succ, splitSlash_append_slash, splitSlash_replicate]

theorem not_mem_of_mem_splitSlash (p s : JSString) (h : s ∈ splitSlash p) : 47 ∉ s := by
  induction p generalizing s with
  | nil => simp [splitSlash] at h; simp [h]
  | cons c cs ih =>
    by_cases hc : c = 47
    · simp only [splitSlash, hc, if_true, List.mem_cons] at h
      rcases h with h | h
      · simp [h]
      · exact ih s h
    · rcases hs : splitSlash cs with _ | ⟨s', ss⟩
      · exact absurd hs (splitSlash_ne_nil cs)
      · simp only [splitSlash, hc, if_false, hs, List.mem_cons] at h
        rcases h with h | h
        · subst h
          have := ih s' (by simp [hs])
          simp only [List.mem_cons, not_or]
          exact ⟨fun h => hc h.symm, this⟩
        · exact ih s (by simp [hs, h])

/-! ### Normalisation of an absolute path -/

theorem normalizeStep_plain (b : Bool) (res : List JSString) (seg : JSString) (h : Plain seg) :
    normalizeStep b res seg = seg :: res := by
  obtain ⟨h1, h2, h3⟩ := h
  simp [normalizeStep, h1, h2, h3]

theorem normalizeStep_dotdot_cons (res : List JSString) (seg : JSString) (h : Plain seg) :
    normalizeStep false (seg :: res) [46, 46] = res := by
  obtain ⟨h1, h2, h3⟩ := h
  simp [normalizeStep, h3]

theorem foldl_normalizeStep_replicate (b : Bool) (res : List JSString) (k : Nat) :
    (List.replicate k []).foldl (normalizeStep b) res = res := by
  induction k with
  | zero => rfl
  | succ k ih => simp [List.replicate_succ, normalizeStep, ih]

theorem stackOf_append_slash (res : List JSString) (a b : JSString) :
    stackOf res (a ++ 47 :: b) = stackOf (stackOf res a) b := by
  simp [stackOf, splitSlash_append_slash, List.foldl_append]

theorem stackOf_nil (res : List JSString) : stackOf res [] = res := by
  simp [stackOf, splitSlash, normalizeStep]

theorem stackOf_dotdot (res : List JSString) :
    stackOf res [46, 46] = normalizeStep false res [46, 46] := by
  simp [stackOf, splitSlash]

theorem stackOf_plain (res : List JSString) (seg : JSString) (h : Plain seg) (hs : 47 ∉ seg) :
    stackOf res seg = seg :: res := by
  simp [stackOf, splitSlash_of_not_mem seg hs, normalizeStep_plain false res seg h]

theorem stackOf_append_replicate (res : List JSString) (s : JSString) (k : Nat) :
    stackOf res (s ++ List.replicate k 47) = stackOf res s := by
  simp [stackOf, splitSlash_append_replicate, List.foldl_append, foldl_normalizeStep_replicate]

/-! ### `path.resolve` read left to right -/

theorem resolveStep_foldr_spec (ps : List JSString) :
    (((ps.foldr resolveStep ([], false)).2 = true →
        ∀ res, stackOf [] (ps.foldr resolveStep ([], false)).1 = resolveStack res ps) ∧
      ((ps.foldr resolveStep ([], false)).2 = false →
        ∀ res, stackOf res (ps.foldr resolveStep ([], false)).1 = resolveStack res ps)) := by
  induction ps with
  | nil => simp [resolveStack, stackOf_nil]
  | cons p rest ih =>
    obtain ⟨ih1, ih2⟩ := ih
    rw [List.foldr_cons]
    rcases hjoin : rest.foldr resolveStep ([], false) with ⟨j, abs⟩
    rw [hjoin] at ih1 ih2
    simp only at ih1 ih2
    cases abs with
    | true =>
      have := ih1 rfl
      simp only [resolveStep, if_true]
      refine ⟨fun _ res => ?_, fun h => by simp at h⟩
      rw [this (if p.head? = some 47 then stackOf [] p else stackOf res p)]
      simp [resolveStack]
    | false =>
      have := ih2 rfl
      by_cases hp : p = []
      · subst hp
        simp only [resolveStep, Bool.false_eq_true, if_false, if_true]
        refine ⟨fun h => by simp at h, fun _ res => ?_⟩
        rw [this res]
        simp [resolveStack, stackOf_nil]
      · by_cases habs : p.head? = some 47
        · simp only [resolveStep, Bool.false_eq_true, if_false, hp, habs, decide_True]
          refine ⟨fun _ res => ?_, fun h => by simp at h⟩
          rw [stackOf_append_slash, this]
          simp [resolveStack, habs]
        · simp only [resolveStep, Bool.false_eq_true, if_false, hp, habs, decide_False]
          refine ⟨fun h => by simp at h, fun _ res => ?_⟩
          rw [stackOf_append_slash, this]
          simp [resolveStack, habs]

/-- With an absolute working directory, `path.resolve` is `/` followed by the kept
pieces of the working directory and the arguments, read left to right. -/
theorem resolve_eq_resolveStack (cwd : JSString) (args : List JSString)
    (hcwd : cwd.head? = some 47) :
    resolve cwd args = 47 :: List.intercalate [47] (resolveStack (stackOf [] cwd) args).reverse := by
  have hne : cwd ≠ [] := by
    intro h; simp [h] at hcwd
  obtain ⟨h1, h2⟩ := resolveStep_foldr_spec (cwd :: args)
  have habs : ((cwd :: args).foldr resolveStep ([], false)).2 = true := by
    rw [List.foldr_cons]
    rcases hj : args.foldr resolveStep ([], false) with ⟨j, abs⟩
    cases abs <;> simp [resolveStep, hne, hcwd]
  have := h1 habs []
  unfold resolve
  simp only [habs, if_true, normalizeString, normalizeSegments, Bool.not_true]
  have e : (splitSlash ((cwd :: args).foldr resolveStep ([], false)).1).foldl
      (normalizeStep false) [] = stackOf [] ((cwd :: args).foldr resolveStep ([], false)).1 := rfl
  rw [e, this]
  simp [resolveStack, hcwd]

/-! ### The right-to-left scan of a path -/

theorem lastPartRev_append_beforeRev (t : JSString) :
    lastPartRev t ++ beforeRev t = trimmedRev t :=
  List.takeWhile_append_dropWhile _ _

theorem not_mem_lastPartRev (t : JSString) : 47 ∉ lastPartRev t := by
  intro h
  have := List.mem_takeWhile_imp h
  simp at this

theorem not_mem_basename (t : JSString) : 47 ∉ basename t := by
  simpa [basename] using not_mem_lastPartRev t

theorem beforeRev_cases (t : JSString) : beforeRev t = [] ∨ ∃ d, beforeRev t = 47 :: d := by
  rcases h : beforeRev t with _ | ⟨c, d⟩
  · exact Or.inl rfl
  · right
    have := List.head?_dropWhile_not (· != 47) (trimmedRev t)
    have e : (List.dropWhile (· != 47) (trimmedRev t)) = c :: d := h
    rw [e] at this
    simp at this
    exact ⟨d, by rw [this]⟩

theorem path_decomp (t : JSString) :
    ∃ k, t = (beforeRev t).reverse ++ basename t ++ List.replicate k 47 := by
  refine ⟨(t.reverse.takeWhile (· == 47)).length, ?_⟩
  have h1 : t.reverse = t.reverse.takeWhile (· == 47) ++ trimmedRev t :=
    (List.takeWhile_append_dropWhile _ _).symm
  have h2 : t.reverse.takeWhile (· == 47)
      = List.replicate (t.reverse.takeWhile (· == 47)).length 47 := by
    rw [List.eq_replicate_iff]
    refine ⟨rfl, fun b hb => ?_⟩
    simpa using List.mem_takeWhile_imp hb
  have h3 : t = (trimmedRev t).reverse ++ (t.reverse.takeWhile (· == 47)).reverse := by
    have := congrArg List.reverse h1
    simpa using this
  rw [← lastPartRev_append_beforeRev] at h3
  rw [h2] at h3
  simpa [basename] using h3

/-- Going up from a path that names a file gives the directory `path.dirname` cuts out. -/
theorem stackOf_dotdot_eq_dirname (res : List JSString) (t : JSString) (h : NamesFile t) :
    normalizeStep false (stackOf res t) [46, 46] = stackOf res (dirname t) := by
  obtain ⟨k, hk⟩ := path_decomp t
  have hplain : Plain (basename t) := h
  have hns := not_mem_basename t
  have hne : t ≠ [] := by
    intro ht
    apply hplain.1
    simp [ht, basename, lastPartRev, trimmedRev]
  rcases hb : beforeRev t with _ | ⟨c, dRev⟩
  · rw [hb] at hk
    simp only [List.reverse_nil, List.nil_append] at hk
    have e1 : stackOf res t = basename t :: res := by
      conv_lhs => rw [hk]
      rw [stackOf_append_replicate, stackOf_plain res _ hplain hns]
    rw [e1, normalizeStep_dotdot_cons res _ hplain]
    simp only [dirname, hne, if_false, hb]
    split <;> simp [stackOf, splitSlash, normalizeStep]
  · rcases beforeRev_cases t with h0 | ⟨d, hd⟩
    · rw [h0] at hb; cases hb
    · rw [hb] at hd
      obtain ⟨rfl, rfl⟩ := List.cons.inj hd
      rw [hb] at hk
      have hk' : t = dRev.reverse ++ 47 :: (basename t ++ List.replicate k 47) := by
        conv_lhs => rw [hk]
        simp
      have e1 : stackOf res t = basename t :: stackOf res dRev.reverse := by
        conv_lhs => rw [hk']
        rw [stackOf_append_slash, stackOf_append_replicate, stackOf_plain _ _ hplain hns]
      rw [e1, normalizeStep_dotdot_cons _ _ hplain]
      simp only [dirname, hne, if_false, hb]
      by_cases h1 : dRev = []
      · simp [h1, stackOf, splitSlash, normalizeStep]
      · by_cases h2 : dRev = [47]
        · simp [h2, stackOf, splitSlash, normalizeStep]
        · simp [h1, h2]

/-- For a path that names a file, `path.dirname` is absolute exactly when the path is. -/
theorem dirname_head (t : JSString) (h : NamesFile t) :
    ((dirname t).head? = some 47) ↔ (t.head? = some 47) := by
  obtain ⟨k, hk⟩ := path_decomp t
  have hplain : Plain (basename t) := h
  have hns := not_mem_basename t
  have hne : t ≠ [] := by
    intro ht
    apply hplain.1
    simp [ht, basename, lastPartRev, trimmedRev]
  rcases hb : beforeRev t with _ | ⟨c, dRev⟩
  · rw [hb] at hk
    simp only [List.reverse_nil, List.nil_append] at hk
    have hhead : t.head? ≠ some 47 := by
      rw [hk]
      rcases hbn : basename t with _ | ⟨x, xs⟩
      · exact absurd hbn hplain.1
      · have : x ≠ 47 := fun hx => hns (by simp [hbn, hx])
        simpa using this
    simp [dirname, hne, hb, hhead]
  · rcases beforeRev_cases t with h0 | ⟨d, hd⟩
    · rw [h0] at hb; cases hb
    · rw [hb] at hd
      obtain ⟨rfl, rfl⟩ := List.cons.inj hd
      rw [hb] at hk
      have hk' : t = dRev.reverse ++ 47 :: (basename t ++ List.replicate k 47) := by
        conv_lhs => rw [hk]
        simp
      simp only [dirname, hne, if_false, hb]
      by_cases h1 : dRev = []
      · rw [hk']; simp [h1]
      · by_cases h2 : dRev = [47]
        · rw [hk']; simp [h2]
        · simp only [h1, h2, if_false]
          have hr : dRev.reverse ≠ [] := by simpa using h1
          rcases hrev : dRev.reverse with _ | ⟨x, xs⟩
          · exact absurd hrev hr
          · rw [hk', hrev]; simp

/-! ### `basename(p, extname(p))` and `parse(p).name` -/

theorem takeWhile_eq_self_of_length {p : Nat → Bool} {xs : List Nat}
    (h : (xs.takeWhile p).length = xs.length) : xs.takeWhile p = xs := by
  have h1 := List.takeWhile_append_dropWhile p xs
  have h2 := congrArg List.length h1
  simp only [List.length_append] at h2
  have h3 : xs.dropWhile p = [] := List.length_eq_zero.mp (by omega)
  rw [h3, List.append_nil] at h1
  exact h1

theorem lastPartRev_cons_slash (s : JSString) : lastPartRev (47 :: s) = lastPartRev s := by
  unfold lastPartRev trimmedRev
  rw [List.reverse_cons, List.dropWhile_append]
  split
  · next h =>
    have h' : List.dropWhile (· == 47) s.reverse = [] := by simpa using h
    simp [h']
  · rw [List.takeWhile_append]
    split
    · next h => simp [takeWhile_eq_self_of_length h]
    · rfl

theorem matchSuffix_append (e r : List Nat) : matchSuffix (e ++ r) e = .matched r := by
  induction e with
  | nil => cases r <;> simp [matchSuffix]
  | cons x xs ih => simp [matchSuffix, ih]

theorem basename_length_le (t : JSString) : (basename t).length ≤ t.length := by
  have h1 : (lastPartRev t).length ≤ (trimmedRev t).length := by
    rw [← lastPartRev_append_beforeRev t]; simp
  have h2 : (trimmedRev t).length ≤ t.reverse.length := by
    have := List.takeWhile_append_dropWhile (· == 47) t.reverse
    have := congrArg List.length this
    simp only [List.length_append] at this
    unfold trimmedRev
    omega
  simpa [basename] using Nat.le_trans h1 h2

theorem ne_nil_of_namesFile (t : JSString) (h : NamesFile t) : t ≠ [] := by
  intro ht
  apply h.1
  simp [ht, basename, lastPartRev, trimmedRev]

theorem parseName_eq_basenameExt (t : JSString) (h : NamesFile t) :
    parseName t = basenameExt t (extname t) := by
  have hne : t ≠ [] := ne_nil_of_namesFile t h
  have hscan : lastPartRev (if (decide (t.head? = some 47)) = true then t.tail else t)
      = lastPartRev t := by
    by_cases habs : t.head? = some 47
    · cases t with
      | nil => exact absurd rfl hne
      | cons c cs =>
        have : c = 47 := by simpa using habs
        subst this
        simp [lastPartRev_cons_slash]
    · simp [habs]
  have hlen : ((lastPartRev t).takeWhile (· != 46)).length ≤ (lastPartRev t).length := by
    have := List.takeWhile_append_dropWhile (· != 46) (lastPartRev t)
    have := congrArg List.length this
    simp only [List.length_append] at this
    omega
  have hble : (lastPartRev t).length ≤ t.length := by
    simpa [basename] using basename_length_le t
  have hdd : (lastPartRev t).reverse ≠ [46, 46] := h.2.2
  unfold parseName extname basenameExt
  simp only [hne, if_false, basename, hscan, List.length_reverse]
  generalize lastPartRev t = L at hlen hble hdd ⊢
  generalize (List.takeWhile (· != 46) L).length = a at hlen ⊢
  by_cases h1 : a = L.length
  · simp [h1]
  · simp only [h1, if_false]
    by_cases h2 : L.length - a - 1 = 0
    · simp [h2]
    · generalize hk : L.length - a - 1 = k at h2 ⊢
      have hk1 : 0 < k := Nat.pos_of_ne_zero h2
      have hk2 : k < L.length := by omega
      have hextlen' : (L.reverse.drop k).length = L.length - k := by simp
      have hext : L.reverse.drop k ≠ [] := by
        intro hnil
        rw [hnil] at hextlen'
        simp only [List.length_nil] at hextlen'
        omega
      have hextlen : (L.reverse.drop k).length ≤ t.length := by omega
      have hneq : L.reverse.drop k ≠ t := by
        intro heq
        rw [heq] at hextlen'
        omega
      have hsplit : L = (L.reverse.drop k).reverse ++ (L.reverse.take k).reverse := by
        rw [← List.reverse_append, List.take_append_drop, List.reverse_reverse]
      have hm : matchSuffix L (L.reverse.drop k).reverse
          = .matched (L.reverse.take k).reverse := by
        conv_lhs => arg 1; rw [hsplit]
        exact matchSuffix_append _ _
      have htake : (L.reverse.take k).reverse ≠ [] := by
        intro hnil
        have := congrArg List.length hnil
        simp only [List.length_reverse, List.length_take, List.length_nil] at this
        omega
      simp only [h2, if_false, hdd, false_and, hext, ne_eq, not_false_eq_true, hextlen,
        and_self, if_true, hneq, hm, htake, List.reverse_reverse]

/-! ### Joining kept pieces -/

theorem intercalate_append_singleton (sep : List Nat) (xs : List (List Nat)) (y : List Nat)
    (h : xs ≠ []) :
    List.intercalate sep (xs ++ [y]) = List.intercalate sep xs ++ sep ++ y := by
  induction xs with
  | nil => exact absurd rfl h
  | cons x rest ih =>
    cases rest with
    | nil => simp [List.intercalate, List.intersperse]
    | cons z zs =>
      have := ih (by simp)
      simp only [List.intercalate, List.cons_append, List.intersperse, List.flatten_cons,
        List.append_assoc, List.append_eq] at this ⊢
      rw [this]

theorem basename_append_slash (a b : JSString) (hb : b ≠ []) (hs : 47 ∉ b) :
    basename (a ++ 47 :: b) = b := by
  have hlast : ∀ x ∈ b.reverse, (x != 47) = true := by
    intro x hx
    have : x ≠ 47 := fun h => hs (by simpa [h] using hx)
    simpa using this
  have hrev : (a ++ 47 :: b).reverse = b.reverse ++ 47 :: a.reverse := by simp
  have hdrop : List.dropWhile (· == 47) (b.reverse ++ 47 :: a.reverse)
      = b.reverse ++ 47 :: a.reverse := by
    rcases hbr : b.reverse with _ | ⟨x, xs⟩
    · simp at hbr; exact absurd hbr hb
    · have : (x == 47) = false := by
        have := hlast x (by simp [hbr])
        simpa using this
      simp [List.dropWhile, this]
  unfold basename lastPartRev trimmedRev
  rw [hrev, hdrop, List.takeWhile_append_of_pos hlast]
  simp [List.takeWhile]

/-! ### Kept pieces are plain names -/

theorem normalizeStep_kept (res : List JSString) (seg : JSString) (h : Kept res)
    (hs : 47 ∉ seg) : Kept (normalizeStep false res seg) := by
  unfold normalizeStep
  by_cases h1 : seg = [] ∨ seg = [46]
  · simpa [h1] using h
  · simp only [h1, if_false]
    by_cases h2 : seg = [46, 46]
    · simp only [h2, if_true]
      cases res with
      | nil => simp [Kept]
      | cons top rest =>
        simp only
        split
        · simpa using h
        · intro s hs'
          exact h s (List.mem_cons_of_mem _ hs')
    · simp only [h2, if_false]
      intro s hs'
      rcases List.mem_cons.mp hs' with h3 | h3
      · subst h3
        exact ⟨⟨fun h => h1 (Or.inl h), fun h => h1 (Or.inr h), h2⟩, hs⟩
      · exact h s h3

theorem foldl_normalizeStep_kept (segs : List JSString) (res : List JSString) (h : Kept res)
    (hs : ∀ s ∈ segs, 47 ∉ s) : Kept (segs.foldl (normalizeStep false) res) := by
  induction segs generalizing res with
  | nil => exact h
  | cons s rest ih =>
    rw [List.foldl_cons]
    exact ih _ (normalizeStep_kept res s h (hs s (by simp)))
      (fun x hx => hs x (List.mem_cons_of_mem _ hx))

theorem stackOf_kept (res : List JSString) (p : JSString) (h : Kept res) :
    Kept (stackOf res p) :=
  foldl_normalizeStep_kept _ res h (fun s hs => not_mem_of_mem_splitSlash p s hs)

theorem kept_nil : Kept [] := by
  intro s hs
  cases hs

theorem resolveStack_kept (res : List JSString) (args : List JSString) (h : Kept res) :
    Kept (resolveStack res args) := by
  induction args generalizing res with
  | nil => exact h
  | cons a rest ih =>
    simp only [resolveStack, List.foldl_cons]
    split
    · exact ih _ (stackOf_kept [] a kept_nil)
    · exact ih _ (stackOf_kept res a h)

theorem resolveStack_append_singleton (res : List JSString) (args : List JSString)
    (a : JSString) (ha : a.head? ≠ some 47) :
    resolveStack res (args ++ [a]) = stackOf (resolveStack res args) a := by
  simp [resolveStack, List.foldl_append, ha]

/-! ### Where the merged file goes -/

theorem output_file_eq (env : Env) (coverletter : JSString) (hcwd : env.cwd.head? = some 47) :
    defaults.pdfMerger.output_file env coverletter (compile.recipient_name env coverletter)
      = (if resolve env.cwd [coverletter, js ".."] = js "/" then js "/"
          else resolve env.cwd [coverletter, js ".."] ++ js "/")
        ++ compile.recipient_name env coverletter ++ js ".pdf" := by
  have hdd : js ".." = [46, 46] := by decide
  have hsl : js "/" = [47] := by decide
  unfold defaults.pdfMerger.output_file compile.recipient_name
  have hdir := resolve_eq_resolveStack env.cwd [coverletter, js ".."] hcwd
  have hkept : Kept (resolveStack (stackOf [] env.cwd) [coverletter, js ".."]) :=
    resolveStack_kept _ _ (stackOf_kept [] _ kept_nil)
  rcases hS : resolveStack (stackOf [] env.cwd) [coverletter, js ".."] with _ | ⟨top, rest⟩
  · rw [hS] at hdir
    have hdir' : resolve env.cwd [coverletter, js ".."] = [47] := by
      simpa [List.intercalate] using hdir
    have hbase : basename [47] = [] := by decide
    have h3 := resolve_eq_resolveStack env.cwd [coverletter, js "..", []] hcwd
    have e3 : resolveStack (stackOf [] env.cwd) [coverletter, js "..", []]
        = stackOf (resolveStack (stackOf [] env.cwd) [coverletter, js ".."]) [] :=
      resolveStack_append_singleton _ [coverletter, js ".."] [] (by simp)
    rw [e3, hS, stackOf_nil] at h3
    rw [hdir', hbase, h3, hsl]
    simp [List.intercalate]
  · rw [hS] at hdir hkept
    obtain ⟨hplain, hns⟩ := hkept top (by simp)
    have hne : top ≠ [] := hplain.1
    have hhead : top.head? ≠ some 47 := by
      cases top with
      | nil => simp
      | cons x xs =>
        have : x ≠ 47 := fun h => hns (by simp [h])
        simpa using this
    have hsplit : ∃ a, resolve env.cwd [coverletter, js ".."] = a ++ 47 :: top := by
      rw [hdir]
      cases rest with
      | nil => exact ⟨[], by simp [List.intercalate]⟩
      | cons r rs =>
        refine ⟨47 :: List.intercalate [47] (r :: rs).reverse, ?_⟩
        rw [List.reverse_cons, intercalate_append_singleton _ _ _ (by simp)]
        simp
    obtain ⟨a, ha⟩ := hsplit
    have hbase : basename (resolve env.cwd [coverletter, js ".."]) = top := by
      rw [ha]; exact basename_append_slash a top hne hns
    have hnot : resolve env.cwd [coverletter, js ".."] ≠ js "/" := by
      rw [ha, hsl]
      intro h
      have := congrArg List.length h
      simp at this
      have : top.length = 0 := by omega
      exact hne (List.length_eq_zero.mp this)
    have h3 := resolve_eq_resolveStack env.cwd [coverletter, js "..", top] hcwd
    have e3 : resolveStack (stackOf [] env.cwd) [coverletter, js "..", top]
        = stackOf (resolveStack (stackOf [] env.cwd) [coverletter, js ".."]) top :=
      resolveStack_append_singleton _ [coverletter, js ".."] top hhead
    rw [e3, hS, stackOf_plain _ _ hplain hns, List.reverse_cons,
      intercalate_append_singleton _ _ _ (by simp)] at h3
    rw [hbase, h3, if_neg hnot, hdir, hsl]
    simp

theorem not_mem_parseName (t : JSString) : 47 ∉ parseName t := by
  unfold parseName
  simp only
  split_ifs <;>
    first
    | exact List.not_mem_nil _
    | exact not_mem_basename _
    | exact fun h => not_mem_basename _ (List.mem_of_mem_take h)

theorem head_append_pdf (name : JSString) (h : 47 ∉ name) :
    (name ++ js ".pdf").head? ≠ some 47 := by
  cases name with
  | nil => decide
  | cons x xs =>
    have : x ≠ 47 := fun hx => h (by simp [hx])
    simpa using this

theorem intercalate_snoc_append (sep : List Nat) (xs : List (List Nat)) (y z : List Nat) :
    List.intercalate sep (xs ++ [y]) ++ z = List.intercalate sep (xs ++ [y ++ z]) := by
  by_cases h : xs = []
  · subst h; simp [List.intercalate]
  · rw [intercalate_append_singleton _ _ _ h, intercalate_append_singleton _ _ _ h]
    simp

theorem output_file_fixture (env : Env) (hcwd : env.cwd.head? = some 47) :
    defaults.pdfMerger.output_file env (js "test/fixtures/fileA.test")
        (compile.recipient_name env (js "test/fixtures/fileA.test"))
      = resolve env.cwd [js "test/fixtures/fixtures.pdf"] := by
  have hsplit : splitSlash (js "test/fixtures/fileA.test")
      = [js "test", js "fixtures", js "fileA.test"] := by decide
  have hsplit2 : splitSlash (js "test/fixtures/fixtures.pdf")
      = [js "test", js "fixtures", js "fixtures.pdf"] := by decide
  have hdd : js ".." = [46, 46] := by decide
  have h1 : js "test" = [116, 101, 115, 116] := by decide
  have h2 : js "fixtures" = [102, 105, 120, 116, 117, 114, 101, 115] := by decide
  have h3 : js "fileA.test" = [102, 105, 108, 101, 65, 46, 116, 101, 115, 116] := by decide
  have h4 : js "fixtures.pdf" = js "fixtures" ++ js ".pdf" := by decide
  have hS : resolveStack (stackOf [] env.cwd) [js "test/fixtures/fileA.test", js ".."]
      = js "fixtures" :: js "test" :: stackOf [] env.cwd := by
    have ha : (js "test/fixtures/fileA.test").head? ≠ some 47 := by decide
    have hb : (js "..").head? ≠ some 47 := by decide
    simp only [resolveStack, List.foldl_cons, List.foldl_nil, if_neg ha, if_neg hb]
    rw [hdd, stackOf_dotdot]
    simp only [stackOf, hsplit, List.foldl_cons, List.foldl_nil]
    simp [normalizeStep, h1, h2, h3]
  have hdir := resolve_eq_resolveStack env.cwd [js "test/fixtures/fileA.test", js ".."] hcwd
  rw [hS] at hdir
  have hbase : compile.recipient_name env (js "test/fixtures/fileA.test") = js "fixtures" := by
    unfold compile.recipient_name
    rw [hdir, List.reverse_cons]
    have : (47 : Nat) :: List.intercalate [47] ((js "test" :: stackOf [] env.cwd).reverse
        ++ [js "fixtures"])
        = (47 :: List.intercalate [47] (js "test" :: stackOf [] env.cwd).reverse)
          ++ 47 :: js "fixtures" := by
      rw [intercalate_append_singleton _ _ _ (by simp)]
      simp
    rw [this]
    exact basename_append_slash _ _ (by decide) (by decide)
  unfold defaults.pdfMerger.output_file
  rw [hbase]
  have h5 := resolve_eq_resolveStack env.cwd
    [js "test/fixtures/fileA.test", js "..", js "fixtures"] hcwd
  have e5 : resolveStack (stackOf [] env.cwd)
        [js "test/fixtures/fileA.test", js "..", js "fixtures"]
      = js "fixtures" :: js "fixtures" :: js "test" :: stackOf [] env.cwd := by
    have e : resolveStack (stackOf [] env.cwd)
          [js "test/fixtures/fileA.test", js "..", js "fixtures"]
        = stackOf (resolveStack (stackOf [] env.cwd) [js "test/fixtures/fileA.test", js ".."])
            (js "fixtures") :=
      resolveStack_append_singleton _ [js "test/fixtures/fileA.test", js ".."] _ (by decide)
    rw [e, hS]
    exact stackOf_plain _ _ (by decide) (by decide)
  have h6 := resolve_eq_resolveStack env.cwd [js "test/fixtures/fixtures.pdf"] hcwd
  have e6 : resolveStack (stackOf [] env.cwd) [js "test/fixtures/fixtures.pdf"]
      = js "fixtures.pdf" :: js "fixtures" :: js "test" :: stackOf [] env.cwd := by
    have ha : (js "test/fixtures/fixtures.pdf").head? ≠ some 47 := by decide
    simp only [resolveStack, List.foldl_cons, List.foldl_nil, if_neg ha]
    simp only [stackOf, hsplit2, List.foldl_cons, List.foldl_nil]
    have h7 : js "fixtures.pdf"
        = [102, 105, 120, 116, 117, 114, 101, 115, 46, 112, 100, 102] := by decide
    simp [normalizeStep, h1, h2, h7]
  rw [h5, e5, h6, e6, List.reverse_cons, List.reverse_cons (a := js "fixtures.pdf"), h4]
  simp only [List.cons_append]
  rw [intercalate_snoc_append]

/-! ## Lemmas on the default strategies -/

/-- The staleness check always answers: its promise is fulfilled with a boolean. -/
theorem isPdfFresh_resolves (env : Env) (tex_doc : JSString) :
    isPdfFresh env tex_doc = .resolved true ∨ isPdfFresh env tex_doc = .resolved false := by
  rcases h1 : env.stat (isPdfFresh.compiled_doc env tex_doc) with e | a
  · simp [isPdfFresh, h1]
  · rcases h2 : env.stat tex_doc with e | s
    · simp [isPdfFresh, h1, h2]
    · by_cases h : s.mtime < a.mtime <;> simp [isPdfFresh, h1, h2, h]

/-- The command line of the compile process is `pdflatex`, a blank, the document. -/
theorem makePdf_call_cmd (env : Env) (tex_doc : JSString) :
    (makePdf.call env tex_doc).cmd = js "pdflatex " ++ tex_doc := by
  have : js "pdflatex" ++ js " " = js "pdflatex " := by decide
  simp [makePdf.call, ← List.append_assoc, this]

/-- With readable files and a complete schedule the hashing promise is fulfilled
with the digest of the bytes fed to the accumulator. -/
theorem generateHash_resolves (env : Env) (schedule : List Nat) (files : List JSString)
    (hreadable : ∀ file ∈ files, (env.createReadStream file).failure = none)
    (hcomplete : scheduleComplete schedule (openStreams env files) = true) :
    ∃ fed : Buffer, generateHash env schedule files = .resolved (sha1Hex fed) := by
  have hclean : HashRun.clean
      { shasum := [], streams := openStreams env files, rejection := none } := by
    refine ⟨rfl, ?_⟩
    intro s hs ev hev e
    simp only [openStreams, List.mem_map] at hs
    obtain ⟨file, hfile, rfl⟩ := hs
    have hmem : file ∈ files := (List.perm_insertionSort _ files).subset hfile
    have hnone := hreadable file hmem
    simp only [ReadScript.events, hnone, List.mem_append, List.mem_map,
      List.mem_singleton] at hev
    rcases hev with ⟨chunk, -, rfl⟩ | rfl <;> simp
  have hfin := foldl_deliver_clean schedule _ hclean
  have hall := foldl_deliver_all_empty schedule
    { shasum := [], streams := openStreams env files, rejection := none } hcomplete
  refine ⟨(schedule.foldl HashRun.deliver
    { shasum := [], streams := openStreams env files, rejection := none }).shasum, ?_⟩
  unfold generateHash
  simp only [hfin.1, hall, if_true]

/-- The FIPS 180 test vector: the digest of the three bytes of `abc`. -/
theorem sha1Hex_abc : sha1Hex (js "abc") = js "a9993e364706816aba3e25717850c26c9cd0d89d" := by
  decide!

/-! ### Streams read one after the other -/

theorem foldl_deliver_one_stream (s : List StreamEvent) (r : HashRun)
    (pre post : List (List StreamEvent))
    (hstreams : r.streams = pre ++ s :: post)
    (hclean : ∀ ev ∈ s, ∀ e, ev ≠ StreamEvent.error e) :
    (List.replicate s.length pre.length).foldl HashRun.deliver r
      = { shasum := r.shasum ++ s.flatMap StreamEvent.bytes,
          streams := pre ++ [] :: post,
          rejection := r.rejection } := by
  induction s generalizing r with
  | nil =>
    rcases r with ⟨sh, st, rej⟩
    simp only at hstreams
    simp [hstreams]
  | cons ev s' ih =>
    have hget : r.streams[pre.length]? = some (ev :: s') := by
      rw [hstreams, List.getElem?_append_right (Nat.le_refl _)]
      simp
    have hset : r.streams.set pre.length s' = pre ++ s' :: post := by
      rw [hstreams, List.set_append_right _ _ (Nat.le_refl _)]
      simp
    have hrest : ∀ ev' ∈ s', ∀ e, ev' ≠ StreamEvent.error e :=
      fun ev' h => hclean ev' (List.mem_cons_of_mem _ h)
    rw [List.length_cons, List.replicate_succ, List.foldl_cons]
    cases ev with
    | data chunk =>
      have hd : r.deliver pre.length
          = { shasum := r.shasum ++ chunk, streams := pre ++ s' :: post,
              rejection := r.rejection } := by
        simp [HashRun.deliver, hget, hset]
      rw [hd, ih _ rfl hrest]
      simp [StreamEvent.bytes, List.flatMap_cons]
    | finished =>
      have hd : r.deliver pre.length
          = { shasum := r.shasum, streams := pre ++ s' :: post,
              rejection := r.rejection } := by
        simp [HashRun.deliver, hget, hset]
      rw [hd, ih _ rfl hrest]
      simp [StreamEvent.bytes, List.flatMap_cons]
    | error e => exact absurd rfl (hclean _ (List.mem_cons_self _ _) e)

theorem foldl_deliver_in_order (todo : List (List StreamEvent)) (r : HashRun)
    (pre : List (List StreamEvent))
    (hstreams : r.streams = pre ++ todo)
    (hclean : ∀ s ∈ todo, ∀ ev ∈ s, ∀ e, ev ≠ StreamEvent.error e) :
    (inOrderFrom pre.length todo).foldl HashRun.deliver r
      = { shasum := r.shasum ++ todo.flatMap (fun s => s.flatMap StreamEvent.bytes),
          streams := pre ++ todo.map (fun _ => []),
          rejection := r.rejection } := by
  induction todo generalizing r pre with
  | nil =>
    rcases r with ⟨sh, st, rej⟩
    simp only at hstreams
    simp [inOrderFrom, hstreams]
  | cons s rest ih =>
    rw [inOrderFrom, List.foldl_append,
      foldl_deliver_one_stream s r pre rest hstreams (hclean s (List.mem_cons_self _ _))]
    have hlen : (pre ++ [[]]).length = pre.length + 1 := by simp
    rw [← hlen, ih _ (pre ++ [[]]) (by simp)
      (fun s' h => hclean s' (List.mem_cons_of_mem _ h))]
    simp [List.flatMap_cons]

theorem events_bytes (script : ReadScript) :
    script.events.flatMap StreamEvent.bytes = script.contents := by
  unfold ReadScript.events ReadScript.contents
  have h1 : ∀ chunks : List Buffer,
      (chunks.map StreamEvent.data).flatMap StreamEvent.bytes = chunks.flatten := by
    intro chunks
    induction chunks with
    | nil => rfl
    | cons c cs ih => simp [List.flatMap_cons, StreamEvent.bytes, ih]
  rw [List.flatMap_append, h1]
  cases script.failure <;> simp [StreamEvent.bytes, List.flatMap_cons]

/-- When every file is readable and the streams are read one after the other in
array order, `generateHash` is fulfilled with the digest of the files' contents
joined in sorted path order. -/
theorem generateHash_in_order (env : Env) (files : List JSString)
    (hreadable : ∀ file ∈ files, (env.createReadStream file).failure = none) :
    generateHash env (inOrderSchedule (openStreams env files)) files
      = .resolved (sha1Hex
          ((jsSort files).flatMap fun file => (env.createReadStream file).contents)) := by
  have hclean : ∀ s ∈ openStreams env files, ∀ ev ∈ s, ∀ e, ev ≠ StreamEvent.error e := by
    intro s hs ev hev e
    simp only [openStreams, List.mem_map] at hs
    obtain ⟨file, hfile, rfl⟩ := hs
    have hmem : file ∈ files := (List.perm_insertionSort _ files).subset hfile
    have hnone := hreadable file hmem
    simp only [ReadScript.events, hnone, List.mem_append, List.mem_map,
      List.mem_singleton] at hev
    rcases hev with ⟨chunk, -, rfl⟩ | rfl <;> simp
  have hrun := foldl_deliver_in_order (openStreams env files)
    { shasum := [], streams := openStreams env files, rejection := none } [] rfl hclean
  unfold generateHash inOrderSchedule
  simp only [List.length_nil] at hrun
  simp only [hrun, List.nil_append]
  have hall : (List.map (fun _ => ([] : List StreamEvent)) (openStreams env files)).all
      List.isEmpty = true := by
    simp
  rw [if_pos hall]
  congr 2
  simp only [openStreams, List.flatMap_map, events_bytes]

/-- The in-order reading of the two sample files. -/
theorem generateHash_in_order_witness :
    generateHash sampleEnv (inOrderSchedule (openStreams sampleEnv [js "b.txt", js "a.txt"]))
        [js "b.txt", js "a.txt"]
      = .resolved (sha1Hex
          ((jsSort [js "b.txt", js "a.txt"]).flatMap fun file =>
            (sampleEnv.createReadStream file).contents)) :=
  generateHash_in_order sampleEnv [js "b.txt", js "a.txt"] (by decide)

/-- The staleness check never rejects: whatever `stat` answers for the artifact and
for the source, its promise is fulfilled with a boolean. -/
theorem isPdfFresh_never_rejects (env : Env) (tex_doc : JSString) :
    (isPdfFresh env tex_doc).failure = none ∧
    (isPdfFresh env tex_doc = .resolved true ∨ isPdfFresh env tex_doc = .resolved false) := by
  rcases isPdfFresh_resolves env tex_doc with h | h
  · exact ⟨by rw [h]; rfl, Or.inl h⟩
  · exact ⟨by rw [h]; rfl, Or.inr h⟩

/-! ### An unreadable file -/

theorem deliver_rejection_ne_none (r : HashRun) (j : Nat) (h : r.rejection ≠ none) :
    (r.deliver j).rejection ≠ none := by
  unfold HashRun.deliver
  split
  · next ev rest hj =>
    cases ev with
    | data chunk => exact h
    | finished => exact h
    | error e =>
      simp only
      split
      · next hnone => exact absurd hnone h
      · exact h
  · exact h

theorem deliver_doomed (r : HashRun) (j : Nat) (h : r.doomed) : (r.deliver j).doomed := by
  rcases h with h | ⟨i, s, e, hi, he⟩
  · exact Or.inl (deliver_rejection_ne_none r j h)
  · by_cases hij : j = i
    · subst hij
      cases s with
      | nil => cases he
      | cons ev rest =>
        have hlt : j < r.streams.length := by
          rcases Nat.lt_or_ge j r.streams.length with h1 | h1
          · exact h1
          · rw [List.getElem?_eq_none h1] at hi
            cases hi
        rcases List.mem_cons.mp he with h1 | h1
        · subst h1
          left
          unfold HashRun.deliver
          simp only [hi]
          split <;> simp_all
        · right
          refine ⟨j, rest, e, ?_, h1⟩
          rw [deliver_streams]
          simp [hi, List.getElem?_set_self hlt]
    · right
      refine ⟨i, s, e, ?_, he⟩
      rw [deliver_streams]
      split
      · rw [List.getElem?_set_ne hij]; exact hi
      · exact hi

theorem foldl_deliver_doomed (schedule : List Nat) (r : HashRun) (h : r.doomed) :
    (schedule.foldl HashRun.deliver r).doomed := by
  induction schedule generalizing r with
  | nil => exact h
  | cons j js ih => exact ih _ (deliver_doomed r j h)

theorem deliver_errorsIn (P : JSError → Prop) (r : HashRun) (j : Nat) (h : r.errorsIn P) :
    (r.deliver j).errorsIn P := by
  obtain ⟨hrej, hev⟩ := h
  have hstreams : ∀ s ∈ (r.deliver j).streams, ∀ e, StreamEvent.error e ∈ s → P e := by
    rw [deliver_streams]
    split
    · next ev rest hj =>
      intro s hs
      rcases List.mem_or_eq_of_mem_set hs with h1 | h1
      · exact hev s h1
      · subst h1
        intro e he
        exact hev _ (List.getElem?_mem hj) e (List.mem_cons_of_mem _ he)
    · exact hev
  refine ⟨?_, hstreams⟩
  unfold HashRun.deliver
  split
  · next ev rest hj =>
    cases ev with
    | data chunk => exact hrej
    | finished => exact hrej
    | error e =>
      simp only
      split
      · intro e' he'
        simp only [Option.some.injEq] at he'
        subst he'
        exact hev _ (List.getElem?_mem hj) e (List.mem_cons_self _ _)
      · exact hrej
  · exact hrej

theorem foldl_deliver_errorsIn (P : JSError → Prop) (schedule : List Nat) (r : HashRun)
    (h : r.errorsIn P) : (schedule.foldl HashRun.deliver r).errorsIn P := by
  induction schedule generalizing r with
  | nil => exact h
  | cons j js ih => exact ih _ (deliver_errorsIn P r j h)

/-- With an unreadable file among the paths `generateHash` never yields a digest, and
once every stream event is delivered it is rejected with the error of an unreadable file. -/
theorem generateHash_unreadable (env : Env) (schedule : List Nat) (files : List JSString)
    (file : JSString) (e : JSError) (hfile : file ∈ files)
    (hfail : (env.createReadStream file).failure = some e) :
    (∀ hash, generateHash env schedule files ≠ .resolved hash) ∧
    (scheduleComplete schedule (openStreams env files) = true →
      ∃ e' file', file' ∈ files ∧ (env.createReadStream file').failure = some e' ∧
        generateHash env schedule files = .rejected e') := by
  have hmem : file ∈ jsSort files := (List.perm_insertionSort _ files).symm.subset hfile
  have hdoomed : HashRun.doomed
      { shasum := [], streams := openStreams env files, rejection := none } := by
    right
    have hs : (env.createReadStream file).events ∈ openStreams env files :=
      List.mem_map.mpr ⟨file, hmem, rfl⟩
    obtain ⟨i, hi, hget⟩ := List.getElem_of_mem hs
    refine ⟨i, (env.createReadStream file).events, e, ?_, ?_⟩
    · simp only
      rw [List.getElem?_eq_getElem hi, hget]
    · simp [ReadScript.events, hfail]
  have herrors : HashRun.errorsIn
      (fun e' => ∃ file', file' ∈ files ∧ (env.createReadStream file').failure = some e')
      { shasum := [], streams := openStreams env files, rejection := none } := by
    refine ⟨fun e' h => (by cases h), ?_⟩
    intro s hs e' he'
    simp only [openStreams, List.mem_map] at hs
    obtain ⟨f, hf, rfl⟩ := hs
    refine ⟨f, (List.perm_insertionSort _ files).subset hf, ?_⟩
    simp only [ReadScript.events, List.mem_append, List.mem_map, List.mem_singleton] at he'
    rcases he' with ⟨chunk, -, h⟩ | h
    · cases h
    · cases hf' : (env.createReadStream f).failure with
      | none => rw [hf'] at h; cases h
      | some e'' =>
        rw [hf'] at h
        simp only [StreamEvent.error.injEq] at h
        rw [h]
  have hfin := foldl_deliver_doomed schedule _ hdoomed
  have hfinE := foldl_deliver_errorsIn _ schedule _ herrors
  constructor
  · intro hash
    unfold generateHash
    simp only
    split
    · simp
    · next hnone =>
      rcases hfin with h | ⟨i, s, e', hi, he'⟩
      · exact absurd hnone h
      · have hne : ¬ ((schedule.foldl HashRun.deliver
            { shasum := [], streams := openStreams env files, rejection := none }).streams.all
            List.isEmpty = true) := by
          rw [List.all_eq_true]
          intro hall
          have := hall s (List.getElem?_mem hi)
          cases s with
          | nil => cases he'
          | cons x xs => simp at this
        rw [if_neg hne]
        simp
  · intro hcomplete
    have hall := foldl_deliver_all_empty schedule
      { shasum := [], streams := openStreams env files, rejection := none } hcomplete
    rcases hfin with h | ⟨i, s, e', hi, he'⟩
    · rcases hrej : (schedule.foldl HashRun.deliver
          { shasum := [], streams := openStreams env files, rejection := none }).rejection
        with _ | e'
      · exact absurd hrej h
      · obtain ⟨file', hf1, hf2⟩ := hfinE.1 e' hrej
        refine ⟨e', file', hf1, hf2, ?_⟩
        unfold generateHash
        simp only [hrej]
    · exfalso
      rw [List.all_eq_true] at hall
      have := hall s (List.getElem?_mem hi)
      cases s with
      | nil => cases he'
      | cons x xs => simp at this

/-- The sample project with a missing file among the paths. -/
theorem generateHash_unreadable_witness :
    (∀ hash, generateHash sampleEnv [0, 1, 1] [js "missing.txt", js "a.txt"]
      ≠ .resolved hash) ∧
    (scheduleComplete [0, 1, 1] (openStreams sampleEnv [js "missing.txt", js "a.txt"]) = true →
      ∃ e' file', file' ∈ [js "missing.txt", js "a.txt"] ∧
        (sampleEnv.createReadStream file').failure = some e' ∧
        generateHash sampleEnv [0, 1, 1] [js "missing.txt", js "a.txt"] = .rejected e') :=
  generateHash_unreadable sampleEnv [0, 1, 1] [js "missing.txt", js "a.txt"]
    (js "missing.txt") (js "ENOENT") (by decide) (by decide)

/-- For a path whose final component is a file name, in a process with an absolute
working directory, the artifact path `isPdfFresh` checks and the path `makePdf`
resolves with are the same. -/
theorem artifact_paths_agree (env : Env) (tex_doc : JSString)
    (hcwd : env.cwd.head? = some 47) (hfile : NamesFile tex_doc) :
    isPdfFresh.compiled_doc env tex_doc = makePdf.fulfilled_value env tex_doc := by
  have hdd : js ".." = [46, 46] := by decide
  have hn := head_append_pdf (parseName tex_doc) (not_mem_parseName tex_doc)
  unfold isPdfFresh.compiled_doc makePdf.fulfilled_value
  rw [← parseName_eq_basenameExt tex_doc hfile]
  rw [resolve_eq_resolveStack _ _ hcwd, resolve_eq_resolveStack _ _ hcwd]
  have e1 : resolveStack (stackOf [] env.cwd) [dirname tex_doc, parseName tex_doc ++ js ".pdf"]
      = stackOf (resolveStack (stackOf [] env.cwd) [dirname tex_doc])
          (parseName tex_doc ++ js ".pdf") :=
    resolveStack_append_singleton _ [dirname tex_doc] _ hn
  have e2 : resolveStack (stackOf [] env.cwd)
        [tex_doc, js "..", parseName tex_doc ++ js ".pdf"]
      = stackOf (resolveStack (stackOf [] env.cwd) [tex_doc, js ".."])
          (parseName tex_doc ++ js ".pdf") :=
    resolveStack_append_singleton _ [tex_doc, js ".."] _ hn
  have e3 : resolveStack (stackOf [] env.cwd) [tex_doc, js ".."]
      = resolveStack (stackOf [] env.cwd) [dirname tex_doc] := by
    have e4 : resolveStack (stackOf [] env.cwd) [tex_doc, js ".."]
        = stackOf (resolveStack (stackOf [] env.cwd) [tex_doc]) (js "..") :=
      resolveStack_append_singleton _ [tex_doc] _ (by decide)
    rw [e4, hdd, stackOf_dotdot]
    simp only [resolveStack, List.foldl_cons, List.foldl_nil]
    by_cases habs : tex_doc.head? = some 47
    · rw [if_pos habs, if_pos ((dirname_head tex_doc hfile).mpr habs)]
      exact stackOf_dotdot_eq_dirname _ _ hfile
    · rw [if_neg habs, if_neg (fun h => habs ((dirname_head tex_doc hfile).mp h))]
      exact stackOf_dotdot_eq_dirname _ _ hfile
  rw [e1, e2, e3]

/-- When `isPdfFresh` reports fresh, `stat` of the artifact it checked succeeded. -/
theorem isPdfFresh_true_artifact_exists (env : Env) (tex_doc : JSString)
    (h : isPdfFresh env tex_doc = .resolved true) :
    ∃ compiled_doc_stats : Stats,
      env.stat (isPdfFresh.compiled_doc env tex_doc) = .ok compiled_doc_stats := by
  rcases h1 : env.stat (isPdfFresh.compiled_doc env tex_doc) with e | a
  · simp [isPdfFresh, h1] at h
  · exact ⟨a, rfl⟩

/-! ## The claims -/

/-- C1, evaluated where the code departs from it: `a.txt` holds the bytes 1, 2 and
`b.txt` the byte 3, each read in one chunk. When the chunk of `b.txt` is delivered
before the chunk of `a.txt` (a complete schedule), `generateHash` is fulfilled with
the SHA-1 of 3, 1, 2, which is not the SHA-1 of the contents in sorted path order. -/
theorem generateHash_follows_arrival_order :
    scheduleComplete [1, 0, 0, 1] (openStreams sampleEnv [js "a.txt", js "b.txt"]) = true ∧
    generateHash sampleEnv [1, 0, 0, 1] [js "a.txt", js "b.txt"]
      = .resolved (js "0a3cfe7c50de0df2abf1c326754c7e2b486867ce") ∧
    sha1Hex ([1, 2] ++ [3]) = js "7037807198c22a7d2b0807371d763779a84fdfcf" ∧
    generateHash sampleEnv [1, 0, 0, 1] [js "a.txt", js "b.txt"]
      ≠ .resolved (sha1Hex ([1, 2] ++ [3])) := by
  decide!

/-- Under one and the same delivery schedule of the stream events, `generateHash`
ends the same way for a list of paths and for any permutation of it, and so does
`getName` with the same recipient name: the paths are sorted before the streams are
opened. -/
theorem generateHash_perm (env : Env) (schedule : List Nat) (files files' : List JSString)
    (recipient_name : JSString) (h : files.Perm files') :
    generateHash env schedule files = generateHash env schedule files' ∧
    getName env schedule { files := files, recipient_name := recipient_name }
      = getName env schedule { files := files', recipient_name := recipient_name } := by
  have hs : openStreams env files = openStreams env files' := by
    simp only [openStreams, jsSort_perm h]
  have hg : generateHash env schedule files = generateHash env schedule files' := by
    simp only [generateHash, hs]
  exact ⟨hg, by simp only [getName, hg]⟩

/-- C2, evaluated where the code departs from it: the list `[a.txt, b.txt]` and its
permutation `[b.txt, a.txt]`, same file contents (`a.txt` the bytes 1, 2 and `b.txt`
the byte 3, one chunk each).  Each call opens its own streams; in the first call the
chunk of `a.txt` arrives first, in the second the chunk of `b.txt` does, both
schedules deliver every event.  The two calls of `generateHash` are fulfilled with
different digests, and so are the two calls of `getName` with recipient `Test`. -/
theorem generateHash_perm_digests_differ :
    List.Perm [js "a.txt", js "b.txt"] [js "b.txt", js "a.txt"] ∧
    scheduleComplete [0, 0, 1, 1] (openStreams sampleEnv [js "a.txt", js "b.txt"]) = true ∧
    scheduleComplete [1, 0, 0, 1] (openStreams sampleEnv [js "b.txt", js "a.txt"]) = true ∧
    generateHash sampleEnv [0, 0, 1, 1] [js "a.txt", js "b.txt"]
      = .resolved (js "7037807198c22a7d2b0807371d763779a84fdfcf") ∧
    generateHash sampleEnv [1, 0, 0, 1] [js "b.txt", js "a.txt"]
      = .resolved (js "0a3cfe7c50de0df2abf1c326754c7e2b486867ce") ∧
    generateHash sampleEnv [0, 0, 1, 1] [js "a.txt", js "b.txt"]
      ≠ generateHash sampleEnv [1, 0, 0, 1] [js "b.txt", js "a.txt"] ∧
    getName sampleEnv [0, 0, 1, 1]
        { files := [js "a.txt", js "b.txt"], recipient_name := js "Test" }
      = .resolved (js "test_7037807198") ∧
    getName sampleEnv [1, 0, 0, 1]
        { files := [js "b.txt", js "a.txt"], recipient_name := js "Test" }
      = .resolved (js "test_0a3cfe7c50") :=
  ⟨List.Perm.swap _ _ _, by decide!⟩

/-- C3: when every file is readable and every stream event is delivered, `getName` is
fulfilled with `paramCase(recipient_name)`, an underscore, and the first 10 characters
of the digest `generateHash` is fulfilled with; that digest is 40 lower-case
hexadecimal digits, so exactly 10 hexadecimal digits follow the underscore. -/
theorem getName_format (env : Env) (schedule : List Nat) (options : GetNameOptions)
    (hreadable : ∀ file ∈ options.files, (env.createReadStream file).failure = none)
    (hcomplete : scheduleComplete schedule (openStreams env options.files) = true) :
    ∃ hash : JSString,
      generateHash env schedule options.files = .resolved hash ∧
      hash.length = 40 ∧ (∀ c ∈ hash, isHexDigit c = true) ∧
      getName env schedule options
        = .resolved (env.paramCase options.recipient_name ++ js "_" ++ hash.take 10) ∧
      (hash.take 10).length = 10 ∧ (∀ c ∈ hash.take 10, isHexDigit c = true) := by
  obtain ⟨fed, hfed⟩ := generateHash_resolves env schedule options.files hreadable hcomplete
  refine ⟨sha1Hex fed, hfed, sha1Hex_length fed, sha1Hex_isHex fed, ?_, ?_, ?_⟩
  · simp [getName, hfed, Outcome.thenMap, substr]
  · simp [sha1Hex_length fed]
  · intro c hc
    exact sha1Hex_isHex fed c (List.mem_of_mem_take hc)

/-- C3 at the sample project: recipient `Test` and the two sample files give the
name `test_7037807198`. -/
theorem getName_format_witness :
    (∃ hash : JSString,
      generateHash sampleEnv [0, 0, 1, 1] [js "b.txt", js "a.txt"] = .resolved hash ∧
      hash.length = 40 ∧ (∀ c ∈ hash, isHexDigit c = true) ∧
      getName sampleEnv [0, 0, 1, 1]
          { files := [js "b.txt", js "a.txt"], recipient_name := js "Test" }
        = .resolved (sampleEnv.paramCase (js "Test") ++ js "_" ++ hash.take 10) ∧
      (hash.take 10).length = 10 ∧ (∀ c ∈ hash.take 10, isHexDigit c = true)) ∧
    getName sampleEnv [0, 0, 1, 1]
        { files := [js "b.txt", js "a.txt"], recipient_name := js "Test" }
      = .resolved (js "test_7037807198") :=
  ⟨getName_format sampleEnv [0, 0, 1, 1]
      { files := [js "b.txt", js "a.txt"], recipient_name := js "Test" }
      (by decide) (by decide),
    by decide!⟩

/-- C4 (amended): when the source document and the derived artifact both exist,
`isPdfFresh` reports fresh exactly when the source's mtime is strictly less than the
artifact's mtime; equal timestamps count as stale. -/
theorem isPdfFresh_eq_strictly_newer (env : Env) (tex_doc : JSString)
    (tex_doc_stats compiled_doc_stats : Stats)
    (hsrc : env.stat tex_doc = .ok tex_doc_stats)
    (hpdf : env.stat (isPdfFresh.compiled_doc env tex_doc) = .ok compiled_doc_stats) :
    isPdfFresh env tex_doc
      = .resolved (decide (tex_doc_stats.mtime < compiled_doc_stats.mtime)) := by
  unfold isPdfFresh
  simp only [hpdf, hsrc]
  by_cases h : tex_doc_stats.mtime < compiled_doc_stats.mtime <;> simp [h]

/-- C4 (amended) at the sample project built at time 3000: the artifact is fresh. -/
theorem isPdfFresh_eq_strictly_newer_witness :
    isPdfFresh (builtEnv 3000) (js "cv/letter.tex") = .resolved (decide ((2000 : Int) < 3000)) :=
  isPdfFresh_eq_strictly_newer (builtEnv 3000) (js "cv/letter.tex") ⟨2000⟩ ⟨3000⟩
    (by decide) (by decide)

/-- C4 as stated fails: source and artifact both exist with the same mtime 2000 (so
the artifact's mtime is greater than or equal to the source's), and `isPdfFresh`
reports not fresh. -/
theorem isPdfFresh_equal_mtime_stale :
    (builtEnv 2000).stat (js "cv/letter.tex") = .ok ⟨2000⟩ ∧
    (builtEnv 2000).stat (isPdfFresh.compiled_doc (builtEnv 2000) (js "cv/letter.tex"))
      = .ok ⟨2000⟩ ∧
    isPdfFresh (builtEnv 2000) (js "cv/letter.tex") = .resolved false := by
  decide

/-- C5: when `stat` of the derived artifact fails, `isPdfFresh` is fulfilled with
`false` (it does not reject, the `stat` error goes nowhere), and the default
compiler spawns the compile process: `pdflatex` on the document, in its directory. -/
theorem isPdfFresh_missing_artifact (env : Env) (tex_doc : JSString) (e : JSError)
    (hmissing : env.stat (isPdfFresh.compiled_doc env tex_doc) = .error e) :
    isPdfFresh env tex_doc = .resolved false ∧
    (isPdfFresh env tex_doc).failure = none ∧
    (defaults.texCompiler env tex_doc).spawned
      = [{ cmd := js "pdflatex " ++ tex_doc,
           cwd := some (resolve env.cwd [tex_doc, js ".."]) }] := by
  have h : isPdfFresh env tex_doc = .resolved false := by
    unfold isPdfFresh
    simp only [hmissing]
  refine ⟨h, by rw [h]; rfl, ?_⟩
  unfold defaults.texCompiler
  rw [h]
  have hcmd := makePdf_call_cmd env tex_doc
  simp only [makePdf, Bool.false_eq_true, if_false, List.cons.injEq, and_true]
  simp only [makePdf.call] at hcmd ⊢
  rw [hcmd]

/-- C5 at the sample project, where no artifact exists. -/
theorem isPdfFresh_missing_artifact_witness :
    isPdfFresh sampleEnv (js "cv/letter.tex") = .resolved false ∧
    (isPdfFresh sampleEnv (js "cv/letter.tex")).failure = none ∧
    (defaults.texCompiler sampleEnv (js "cv/letter.tex")).spawned
      = [{ cmd := js "pdflatex " ++ js "cv/letter.tex",
           cwd := some (resolve sampleEnv.cwd [js "cv/letter.tex", js ".."]) }] :=
  isPdfFresh_missing_artifact sampleEnv (js "cv/letter.tex") (js "ENOENT") (by decide)

/-- C6 (amended): for every source document the default compiler spawns the
`pdflatex` process (once) exactly when `isPdfFresh` reports not fresh; when it
reports fresh the compiler spawns nothing and is fulfilled at once with
`path.resolve(tex_doc, '..', parse(tex_doc).name + '.pdf')`.  When the final
component of the document path is a file name and the working directory is absolute,
that path is the artifact `isPdfFresh` checked, and it exists. -/
theorem texCompiler_spawns_iff_stale (env : Env) (tex_doc : JSString) :
    ((defaults.texCompiler env tex_doc).spawned = [makePdf.call env tex_doc]
      ↔ isPdfFresh env tex_doc = .resolved false) ∧
    ((defaults.texCompiler env tex_doc).spawned = []
      ↔ isPdfFresh env tex_doc = .resolved true) ∧
    ((defaults.texCompiler env tex_doc).spawned = []
      ∨ (defaults.texCompiler env tex_doc).spawned = [makePdf.call env tex_doc]) ∧
    ((defaults.texCompiler env tex_doc).spawned = [] ↔
      (defaults.texCompiler env tex_doc).outcome
        = .resolved (makePdf.fulfilled_value env tex_doc)
      ∧ isPdfFresh env tex_doc = .resolved true) ∧
    (makePdf.call env tex_doc).cmd = js "pdflatex " ++ tex_doc ∧
    makePdf.fulfilled_value env tex_doc
      = resolve env.cwd [tex_doc, js "..", parseName tex_doc ++ js ".pdf"] ∧
    (env.cwd.head? = some 47 → NamesFile tex_doc →
      isPdfFresh env tex_doc = .resolved true →
        (defaults.texCompiler env tex_doc).outcome
            = .resolved (isPdfFresh.compiled_doc env tex_doc) ∧
          (defaults.texCompiler env tex_doc).spawned = [] ∧
          ∃ compiled_doc_stats : Stats,
            env.stat (isPdfFresh.compiled_doc env tex_doc) = .ok compiled_doc_stats) := by
  have hcmd := makePdf_call_cmd env tex_doc
  have hlast : env.cwd.head? = some 47 → NamesFile tex_doc →
      isPdfFresh env tex_doc = .resolved true →
        (defaults.texCompiler env tex_doc).outcome
            = .resolved (isPdfFresh.compiled_doc env tex_doc) ∧
          (defaults.texCompiler env tex_doc).spawned = [] ∧
          ∃ compiled_doc_stats : Stats,
            env.stat (isPdfFresh.compiled_doc env tex_doc) = .ok compiled_doc_stats := by
    intro hcwd hfile hfresh
    refine ⟨?_, ?_, isPdfFresh_true_artifact_exists env tex_doc hfresh⟩
    · rw [artifact_paths_agree env tex_doc hcwd hfile]
      simp [defaults.texCompiler, hfresh, makePdf]
    · simp [defaults.texCompiler, hfresh, makePdf]
  refine ⟨?_, ?_, ?_, ?_, hcmd, rfl, hlast⟩ <;>
    rcases isPdfFresh_resolves env tex_doc with h | h <;>
    simp [defaults.texCompiler, h, makePdf]

/-- C6 (amended) at the sample project built at time 3000: for `cv/letter.tex` the
compiler spawns nothing and is fulfilled with `/home/user/coverall/cv/letter.pdf`,
which exists. -/
theorem texCompiler_spawns_iff_stale_witness :
    isPdfFresh (builtEnv 3000) (js "cv/letter.tex") = .resolved true ∧
    (defaults.texCompiler (builtEnv 3000) (js "cv/letter.tex")).outcome
      = .resolved (js "/home/user/coverall/cv/letter.pdf") ∧
    (defaults.texCompiler (builtEnv 3000) (js "cv/letter.tex")).spawned = [] ∧
    (∃ compiled_doc_stats : Stats,
      (builtEnv 3000).stat (js "/home/user/coverall/cv/letter.pdf")
        = .ok compiled_doc_stats) := by
  have h := (texCompiler_spawns_iff_stale (builtEnv 3000) (js "cv/letter.tex")).2.2.2.2.2.2
    (by decide) (by decide) (by decide)
  have hp : isPdfFresh.compiled_doc (builtEnv 3000) (js "cv/letter.tex")
      = js "/home/user/coverall/cv/letter.pdf" := by decide
  rw [hp] at h
  exact ⟨by decide, h.1, h.2.1, h.2.2⟩

/-- C6 as stated fails: for the document path `..` the oracle reports fresh, because
`/home/user/coverall/...pdf` exists and is newer, and the compiler, spawning nothing,
is fulfilled with `/home/...pdf`, a path at which nothing exists. -/
theorem texCompiler_fresh_resolves_missing_path :
    isPdfFresh.compiled_doc dotdotEnv (js "..") = js "/home/user/coverall/...pdf" ∧
    dotdotEnv.stat (js "/home/user/coverall/...pdf") = .ok ⟨3000⟩ ∧
    isPdfFresh dotdotEnv (js "..") = .resolved true ∧
    (defaults.texCompiler dotdotEnv (js "..")).spawned = [] ∧
    (defaults.texCompiler dotdotEnv (js "..")).outcome = .resolved (js "/home/...pdf") ∧
    dotdotEnv.stat (js "/home/...pdf") = .error (js "ENOENT") := by
  decide

/-- C7: when both compile calls are fulfilled, `compile` calls the merge strategy
exactly once, with the two results in the order coverletter, resume, whichever
compile settled first, and the compile strategy once per document.  The promise of
`compile` then ends as the merger's does: fulfilled with the merger's value when the
merger is fulfilled, rejected with the merger's error when the merger is rejected or
throws, and never settled when the merger never settles. -/
theorem compile_merges_in_order (env : Env) (resumeSettlesFirst : Bool)
    (options : CompileOptions) (coverletter_pdf resume_pdf : JSString)
    (hcover : (effectiveTexCompiler env options options.coverletter 0
        [options.coverletter, options.resume]).outcome = .resolved coverletter_pdf)
    (hresume : (effectiveTexCompiler env options options.resume 1
        [options.coverletter, options.resume]).outcome = .resolved resume_pdf) :
    (compile env resumeSettlesFirst options).pdfMergerCalls = [[coverletter_pdf, resume_pdf]] ∧
    (compile env resumeSettlesFirst options).texCompilerCalls
      = [options.coverletter, options.resume] ∧
    (∀ merged : JSString,
      (effectivePdfMerger env options [coverletter_pdf, resume_pdf]).outcome = .resolved merged →
        (compile env resumeSettlesFirst options).outcome = .resolved merged) ∧
    (∀ e : JSError,
      (effectivePdfMerger env options [coverletter_pdf, resume_pdf]).outcome = .rejected e →
        (compile env resumeSettlesFirst options).outcome = .rejected e) ∧
    (∀ e : JSError,
      (effectivePdfMerger env options [coverletter_pdf, resume_pdf]).outcome = .threw e →
        (compile env resumeSettlesFirst options).outcome = .rejected e) ∧
    ((effectivePdfMerger env options [coverletter_pdf, resume_pdf]).outcome = .pending →
      (compile env resumeSettlesFirst options).outcome = .pending) := by
  have hout : (compile env resumeSettlesFirst options).outcome
      = (effectivePdfMerger env options [coverletter_pdf, resume_pdf]).outcome.adopt := by
    simp [compile, hcover, hresume, promiseAll]
  refine ⟨by simp [compile, hcover, hresume, promiseAll],
    by simp [compile, hcover, hresume, promiseAll], ?_, ?_, ?_, ?_⟩
  · intro merged h
    rw [hout, h]
    rfl
  · intro e h
    rw [hout, h]
    rfl
  · intro e h
    rw [hout, h]
    rfl
  · intro h
    rw [hout, h]
    rfl

/-- C7 with the two test doubles: the merger is called once with
`[cv/letter.tex.pdf, cv/resume.tex.pdf]` and `compile` is fulfilled with the merger's
value `merged.pdf`, also when the resume is compiled first. -/
theorem compile_merges_in_order_witness :
    (compile sampleEnv true stubOptions).pdfMergerCalls
      = [[js "cv/letter.tex.pdf", js "cv/resume.tex.pdf"]] ∧
    (compile sampleEnv true stubOptions).texCompilerCalls
      = [js "cv/letter.tex", js "cv/resume.tex"] ∧
    (compile sampleEnv true stubOptions).outcome = .resolved (js "merged.pdf") := by
  have h := compile_merges_in_order sampleEnv true stubOptions
    (js "cv/letter.tex.pdf") (js "cv/resume.tex.pdf") (by decide) (by decide)
  exact ⟨h.1, h.2.1, h.2.2.1 (js "merged.pdf") (by decide)⟩

/-- C8: when the compile strategy fails on at least one of the two documents (its
promise is rejected or the call throws), `compile` never calls the merge strategy and
fails with the error of a failing compile call; no document is compiled twice. -/
theorem compile_fails_fast (env : Env) (resumeSettlesFirst : Bool) (options : CompileOptions)
    (hfail :
      (effectiveTexCompiler env options options.coverletter 0
        [options.coverletter, options.resume]).outcome.failure ≠ none ∨
      (effectiveTexCompiler env options options.resume 1
        [options.coverletter, options.resume]).outcome.failure ≠ none) :
    (compile env resumeSettlesFirst options).pdfMergerCalls = [] ∧
    ((compile env resumeSettlesFirst options).texCompilerCalls
        = [options.coverletter, options.resume] ∨
      (compile env resumeSettlesFirst options).texCompilerCalls = [options.coverletter]) ∧
    ∃ e, (compile env resumeSettlesFirst options).outcome.failure = some e ∧
      ((effectiveTexCompiler env options options.coverletter 0
          [options.coverletter, options.resume]).outcome.failure = some e ∨
        (effectiveTexCompiler env options options.resume 1
          [options.coverletter, options.resume]).outcome.failure = some e) := by
  simp only [compile]
  generalize (effectiveTexCompiler env options options.coverletter 0
        [options.coverletter, options.resume]) = first at hfail ⊢
  generalize (effectiveTexCompiler env options options.resume 1
        [options.coverletter, options.resume]) = second at hfail ⊢
  rcases first with ⟨o1, s1⟩
  rcases second with ⟨o2, s2⟩
  cases o1 <;> cases o2 <;> simp [promiseAll, Outcome.failure] at hfail ⊢
  cases resumeSettlesFirst <;> simp

/-- C8 at the sample project on a machine where `pdflatex` cannot be started. -/
theorem compile_fails_fast_witness :
    (compile brokenEnv false sampleOptions).pdfMergerCalls = [] ∧
    ((compile brokenEnv false sampleOptions).texCompilerCalls
        = [sampleOptions.coverletter, sampleOptions.resume] ∨
      (compile brokenEnv false sampleOptions).texCompilerCalls = [sampleOptions.coverletter]) ∧
    ∃ e, (compile brokenEnv false sampleOptions).outcome.failure = some e ∧
      ((effectiveTexCompiler brokenEnv sampleOptions sampleOptions.coverletter 0
          [sampleOptions.coverletter, sampleOptions.resume]).outcome.failure = some e ∨
        (effectiveTexCompiler brokenEnv sampleOptions sampleOptions.resume 1
          [sampleOptions.coverletter, sampleOptions.resume]).outcome.failure = some e) :=
  compile_fails_fast brokenEnv false sampleOptions (Or.inl (by decide))

/-- C9 (amended): the default merge strategy of `compile` spawns
`gs -dBATCH -dNOPAUSE -sDEVICE=pdfwrite -sOutputFile=` followed by the output path,
the coverletter pdf and the resume pdf, separated by blanks. The output path lies in
the coverletter's directory `path.resolve(coverletter, '..')` and is named after that
directory's own base name (the variable `recipient_name`; `compile` takes no
recipient label), with `.pdf` appended. For the coverletter
`test/fixtures/fileA.test` it is the resolved path `test/fixtures/fixtures.pdf`. -/
theorem pdfMerger_output_file (env : Env) (coverletter resume coverletter_pdf resume_pdf : JSString)
    (texCompiler : Option TexCompiler) (hcwd : env.cwd.head? = some 47) :
    effectivePdfMerger env
        { coverletter := coverletter, resume := resume, texCompiler := texCompiler,
          pdfMerger := none }
      = defaults.pdfMerger env coverletter (compile.recipient_name env coverletter) ∧
    (defaults.pdfMerger env coverletter (compile.recipient_name env coverletter)
        [coverletter_pdf, resume_pdf]).spawned
      = [{ cmd := js "gs -dBATCH -dNOPAUSE -sDEVICE=pdfwrite -sOutputFile="
            ++ defaults.pdfMerger.output_file env coverletter
                (compile.recipient_name env coverletter)
            ++ js " " ++ coverletter_pdf ++ js " " ++ resume_pdf,
           cwd := none }] ∧
    defaults.pdfMerger.output_file env coverletter (compile.recipient_name env coverletter)
      = (if resolve env.cwd [coverletter, js ".."] = js "/" then js "/"
          else resolve env.cwd [coverletter, js ".."] ++ js "/")
        ++ basename (resolve env.cwd [coverletter, js ".."]) ++ js ".pdf" ∧
    defaults.pdfMerger.output_file env (js "test/fixtures/fileA.test")
        (compile.recipient_name env (js "test/fixtures/fileA.test"))
      = resolve env.cwd [js "test/fixtures/fixtures.pdf"] :=
  ⟨rfl, rfl, output_file_eq env coverletter hcwd, output_file_fixture env hcwd⟩

/-- C9 (amended) at the sample project, for the coverletter `test/fixtures/fileA.test`. -/
theorem pdfMerger_output_file_witness :
    defaults.pdfMerger.output_file sampleEnv (js "test/fixtures/fileA.test")
        (compile.recipient_name sampleEnv (js "test/fixtures/fileA.test"))
      = resolve sampleEnv.cwd [js "test/fixtures/fixtures.pdf"] :=
  (pdfMerger_output_file sampleEnv (js "test/fixtures/fileA.test")
    (js "test/fixtures/fileB.test") (js "test/fixtures/fileA.pdf")
    (js "test/fixtures/fileB.pdf") none (by decide)).2.2.2

/-- C9 as stated fails: for the coverletter `test/fixtures/fileA.test` (recipient
`Test`) the output path of the default merge strategy is
`/home/user/coverall/test/fixtures/fixtures.pdf`, not the resolved path
`test/fixtures/test.pdf`. -/
theorem pdfMerger_output_file_not_recipient :
    defaults.pdfMerger.output_file sampleEnv (js "test/fixtures/fileA.test")
        (compile.recipient_name sampleEnv (js "test/fixtures/fileA.test"))
      = js "/home/user/coverall/test/fixtures/fixtures.pdf" ∧
    resolve sampleEnv.cwd [js "test/fixtures/test.pdf"]
      = js "/home/user/coverall/test/fixtures/test.pdf" ∧
    defaults.pdfMerger.output_file sampleEnv (js "test/fixtures/fileA.test")
        (compile.recipient_name sampleEnv (js "test/fixtures/fileA.test"))
      ≠ resolve sampleEnv.cwd [js "test/fixtures/test.pdf"] := by
  decide

/-- C10 (amended): for every source path whose final component is a file name (not
empty, not `.`, not `..`), in a process with an absolute working directory, the
artifact path whose age `isPdfFresh` checks is the path `makePdf` resolves with. -/
theorem compiled_doc_eq_fulfilled_value (env : Env) (tex_doc : JSString)
    (hcwd : env.cwd.head? = some 47) (hfile : NamesFile tex_doc) :
    isPdfFresh.compiled_doc env tex_doc = makePdf.fulfilled_value env tex_doc :=
  artifact_paths_agree env tex_doc hcwd hfile

/-- C10 (amended) at the sample project, for `cv/letter.tex`. -/
theorem compiled_doc_eq_fulfilled_value_witness :
    isPdfFresh.compiled_doc sampleEnv (js "cv/letter.tex")
      = makePdf.fulfilled_value sampleEnv (js "cv/letter.tex") :=
  compiled_doc_eq_fulfilled_value sampleEnv (js "cv/letter.tex") (by decide) (by decide)

/-- C10 as stated fails: for the path `..` the artifact checked is
`/home/user/coverall/...pdf` while `makePdf` resolves with `/home/...pdf`. -/
theorem compiled_doc_ne_fulfilled_value_dotdot :
    isPdfFresh.compiled_doc sampleEnv (js "..") = js "/home/user/coverall/...pdf" ∧
    makePdf.fulfilled_value sampleEnv (js "..") = js "/home/...pdf" ∧
    isPdfFresh.compiled_doc sampleEnv (js "..") ≠ makePdf.fulfilled_value sampleEnv (js "..") := by
  decide

end Coverall
